import Mathlib

/-!
go-bitpacker: `Unpack` and `readBits`.  A shallow embedding of `bitpacker.go`.

Conventions of the embedding.

* Go's `int` is the 64-bit `int` (`strconv.IntSize = 64`).  Values of type `int` are
  integers of `Int`; the only `int` arithmetic of the program (`offset / 8`,
  `offset % 8`, `len(data)*8 - bitOffset`, the additions of the cursor) stays far
  inside the 64-bit range for every buffer that fits in memory, so it is modelled
  without wrap-around.  `/` and `%` on `int` truncate toward zero (`Int.tdiv`,
  `Int.tmod`).
* `byte` and `uint64` values are natural numbers; every operation that can leave the
  range of its type is reduced modulo `2^8` or `2^64` explicitly.
* A call either returns or panics (index out of range); both are outcomes.
-/

namespace Bitpacker

/-! ## The bit reader -/

/-- One byte of the source buffer (`byte`). -/
abbrev Byte := Fin 256

/-- The two errors `readBits` creates with `errors.New`. -/
inductive ReadError
  | tooManyBits     -- "cannot read more than 64 bits at once"
  | notEnoughData   -- "not enough data to read bits"
  deriving DecidableEq

/-- How a call of `readBits` ends: it returns the pair `(uint64, error)`, or the
indexing `data[bytePos]` panics. -/
inductive ReadOutcome
  | ret (value : Nat) (err : Option ReadError)
  | panicked
  deriving DecidableEq

/-- The `for bitsRemaining > 0` loop of `readBits`.  The arguments after the fuel are
the loop variables `result`, `offset`, `bitsRemaining`.  Every iteration lowers
`bitsRemaining` by at least one, so fuel `bitsRemaining` is never used up
(`readBitsLoop_fuel`); the outcome written for that case is never produced. -/
def readBitsLoop (data : List Byte) : Nat → Nat → Int → Int → ReadOutcome
  | fuel, result, offset, bitsRemaining =>
    if bitsRemaining > 0 then
      match fuel with
      | 0 => .panicked
      | fuel + 1 =>
        let bytePos := offset.tdiv 8
        let bitPos := offset.tmod 8
        if bytePos ≥ (data.length : Int) then
          .ret 0 (some .notEnoughData)
        else
          let bitsInByte := 8 - bitPos
          let bitsToRead := if bitsInByte > bitsRemaining then bitsRemaining else bitsInByte
          -- `byte((1 << bitsToRead) - 1)`: the constant 1 has type byte
          let mask := ((1 <<< bitsToRead.toNat) % 256 + 255) % 256
          if bytePos < 0 then
            .panicked
          else
            let bits := ((data.getD bytePos.toNat 0).val >>> (8 - bitPos - bitsToRead).toNat) &&& mask
            let result := ((result <<< bitsToRead.toNat) % 2 ^ 64) ||| bits
            readBitsLoop data fuel result (offset + bitsToRead) (bitsRemaining - bitsToRead)
    else
      .ret result none

/-- The function `readBits(data, offset, count)`. -/
def readBits (data : List Byte) (offset count : Int) : ReadOutcome :=
  if count > 64 then
    .ret 0 (some .tooManyBits)
  else
    readBitsLoop data count.toNat 0 offset count

/-! ## Specification vocabulary for the reader -/

/-- Bit `j` of the stream: bit `7 - j mod 8` of byte `data[j / 8]` (0 outside the
buffer). -/
def bitAt (data : List Byte) (j : Nat) : Nat :=
  (data.getD (j / 8) 0).val / 2 ^ (7 - j % 8) % 2

/-- The big-endian value of the `count` bits starting at stream position `offset`. -/
def window (data : List Byte) (offset count : Nat) : Nat :=
  ∑ i ∈ Finset.range count, bitAt data (offset + i) * 2 ^ (count - 1 - i)


/-! ## The field walker -/

/-- Modelled from the spec: `reflect.Kind` of the Go standard library (not part of the
sources): the kind of a struct field.  The supported targets are the signed and
unsigned integer kinds. -/
inductive Kind
  | Invalid | Bool | Int | Int8 | Int16 | Int32 | Int64
  | Uint | Uint8 | Uint16 | Uint32 | Uint64 | Uintptr
  | Float32 | Float64 | Complex64 | Complex128
  | Array | Chan | Func | Interface | Map | Pointer | Slice | String | Struct | UnsafePointer
  deriving DecidableEq

/-- Size in bits of the integer kinds; `int` and `uint` are 64 bits wide. -/
def Kind.bits : Kind → Nat
  | .Int8 | .Uint8 => 8
  | .Int16 | .Uint16 => 16
  | .Int32 | .Uint32 => 32
  | .Int64 | .Uint64 => 64
  | .Int | .Uint => 64
  | _ => 0

/-- One field of the destination struct, as the walker sees it through reflection:
`field.Name`, `field.IsExported()`, `field.Tag.Lookup("bits")`, `fieldValue.Kind()`
and the number the field currently holds. -/
structure StructField where
  name : String
  exported : Bool
  bitsTag : Option String
  kind : Kind
  value : Int
  deriving DecidableEq

/-- The value of a non-empty string of decimal digits. -/
def digitsValue : List Char → Option Nat
  | [] => none
  | cs => if cs.all (fun c => 48 ≤ c.toNat && c.toNat ≤ 57)
          then some (cs.foldl (fun acc c => acc * 10 + (c.toNat - 48)) 0) else none

/-- The integer a width annotation denotes: an optional sign `+` or `-` followed by
decimal digits.  No bound on the size. -/
def parseDecimal (s : String) : Option Int :=
  match s.data with
  | [] => none
  | c :: cs =>
    if c = '+' then (digitsValue cs).map (fun n => (n : Int))
    else if c = '-' then (digitsValue cs).map (fun n => -(n : Int))
    else (digitsValue (c :: cs)).map (fun n => (n : Int))

/-- Modelled from the spec: `strconv.Atoi` of the Go standard library (not part of the
sources).  A width annotation is numeric when it is an optionally signed decimal
numeral whose value fits the 64-bit `int`; `none` stands for `err != nil`. -/
def Atoi (s : String) : Option Int :=
  match parseDecimal s with
  | some v => if -(2 ^ 63) ≤ v ∧ v < 2 ^ 63 then some v else none
  | none => none

/-- The conversion to a signed integer type of `n` bits: the low `n` bits read as a
two's-complement number. -/
def wrapSigned (n : Nat) (x : Int) : Int :=
  if x % 2 ^ n < 2 ^ (n - 1) then x % 2 ^ n else x % 2 ^ n - 2 ^ n

/-- Modelled from the spec: `reflect.Value.SetUint` (Go standard library): stores
`x` converted to the unsigned type of the field, which keeps the low `k.bits` bits. -/
def SetUint (k : Kind) (x : Nat) : Int :=
  ((x % 2 ^ k.bits : Nat) : Int)

/-- Modelled from the spec: `reflect.Value.SetInt` (Go standard library): stores `x`
converted to the signed type of the field. -/
def SetInt (k : Kind) (x : Int) : Int :=
  wrapSigned k.bits x

/-- The `switch fieldValue.Kind()` of `Unpack`: the number stored in a field of kind
`k` for the extracted `value`, `none` in the `default` case.  `uint64(value)` is the
identity and `int64(value)` is `wrapSigned 64`. -/
def setFieldValue (k : Kind) (value : Nat) : Option Int :=
  match k with
  | .Uint | .Uint8 | .Uint16 | .Uint32 | .Uint64 => some (SetUint k (value % 2 ^ 64))
  | .Int | .Int8 | .Int16 | .Int32 | .Int64 => some (SetInt k (wrapSigned 64 value))
  | _ => none

/-- The errors `Unpack` returns, one constructor for each `errors.New` and
`fmt.Errorf`, with the arguments of the format string in their order. -/
inductive UnpackError
  | notPointer                                              -- "destination must be a non-nil pointer to a struct"
  | notStruct (k : Kind)                                    -- "expected a pointer to struct, got %s"
  | invalidBits (bitsTag : String) (fieldName : String)     -- "invalid bits value '%s' for field %s"
  | notEnoughBits (fieldName : String) (needed available : Int)
                                                            -- "not enough bits to read field %s (needed %d, available %d)"
  | readFailed (fieldName : String) (cause : ReadError)     -- "error reading bits for field %s: %w"
  | unsupportedType (k : Kind) (fieldName : String)         -- "unsupported field type %s for field %s"
  deriving DecidableEq

/-- How a call of `Unpack` ends: it returns `nil` or an error, or it panics. -/
inductive Exit
  | returned (err : Option UnpackError)
  | panicked
  deriving DecidableEq

/-- What one iteration of the loop over the fields does. -/
inductive FieldStep
  | skip                                    -- `continue`
  | assign (value : Int) (bitCount : Int)   -- the field is set, `bitOffset += bitCount`
  | fail (err : UnpackError)                -- `return fmt.Errorf(...)`
  | panic                                   -- `readBits` panicked
  deriving DecidableEq

/-- The body of the loop of `Unpack` for the field `f` at cursor `bitOffset`. -/
def loopBody (data : List Byte) (bitOffset : Int) (f : StructField) : FieldStep :=
  if !f.exported then .skip
  else
    match f.bitsTag with
    | none => .skip
    | some bitsTag =>
      match Atoi bitsTag with
      | none => .fail (.invalidBits bitsTag f.name)
      | some bitCount =>
        if bitCount ≤ 0 then .fail (.invalidBits bitsTag f.name)
        else
          let bitsAvailable := (data.length : Int) * 8 - bitOffset
          if bitsAvailable < bitCount then
            .fail (.notEnoughBits f.name bitCount bitsAvailable)
          else
            match readBits data bitOffset bitCount with
            | .panicked => .panic
            | .ret _ (some err) => .fail (.readFailed f.name err)
            | .ret value none =>
              match setFieldValue f.kind value with
              | some v => .assign v bitCount
              | none => .fail (.unsupportedType f.kind f.name)

/-- The field `f` after an assignment of `v`. -/
def StructField.set (f : StructField) (v : Int) : StructField :=
  ⟨f.name, f.exported, f.bitsTag, f.kind, v⟩

/-- State at the end of a call: the fields of the destination struct, the value of
`bitOffset`, how the call ended, and (a ghost of the model) the value `bitOffset` had
at the start of each iteration that was entered. -/
structure WalkResult where
  fields : List StructField
  cursors : List Int
  bitOffset : Int
  exit : Exit
  deriving DecidableEq

/-- The loop `for i := 0; i < elem.NumField(); i++` over the fields that remain,
started with the cursor at `bitOffset`. -/
def unpackFields (data : List Byte) : List StructField → Int → WalkResult
  | [], bitOffset => ⟨[], [], bitOffset, .returned none⟩
  | f :: rest, bitOffset =>
    match loopBody data bitOffset f with
    | .skip =>
      let r := unpackFields data rest bitOffset
      ⟨f :: r.fields, bitOffset :: r.cursors, r.bitOffset, r.exit⟩
    | .assign v bitCount =>
      let r := unpackFields data rest (bitOffset + bitCount)
      ⟨f.set v :: r.fields, bitOffset :: r.cursors, r.bitOffset, r.exit⟩
    | .fail err => ⟨f :: rest, [bitOffset], bitOffset, .returned (some err)⟩
    | .panic => ⟨f :: rest, [bitOffset], bitOffset, .panicked⟩

/-- The argument `v any` of `Unpack` as reflection classifies it. -/
inductive Dest
  | nonPointer (k : Kind)          -- `val.Kind() != reflect.Pointer` (a nil interface has kind Invalid)
  | nilPointer                     -- `val.IsNil()`
  | pointerTo (k : Kind)           -- pointer to a value of kind `k`, not a struct
  | structPtr (fields : List StructField)

/-- The function `Unpack(data, v)`. -/
def Unpack (data : List Byte) (v : Dest) : WalkResult :=
  match v with
  | .nonPointer _ => ⟨[], [], 0, .returned (some .notPointer)⟩
  | .nilPointer => ⟨[], [], 0, .returned (some .notPointer)⟩
  | .pointerTo k => ⟨[], [], 0, .returned (some (.notStruct k))⟩
  | .structPtr fields => unpackFields data fields 0

/-! ## Specification vocabulary for the walker -/

/-- A field the walker does not skip: exported and with a `bits` annotation. -/
def StructField.described (f : StructField) : Bool :=
  f.exported && f.bitsTag.isSome

/-- The declared bit width of a field; a skipped field takes no bits. -/
def StructField.bitWidth (f : StructField) : Int :=
  if f.exported then
    match f.bitsTag with
    | some t => (Atoi t).getD 0
    | none => 0
  else 0

/-- Sum of the bit widths of a list of fields. -/
def totalWidth (fields : List StructField) : Int :=
  (fields.map StructField.bitWidth).sum

/-- The kinds the walker can assign to. -/
def supportedKind (k : Kind) : Bool :=
  (setFieldValue k 0).isSome

/-- The signed integer kinds. -/
def signedKind (k : Kind) : Bool :=
  match k with
  | .Int | .Int8 | .Int16 | .Int32 | .Int64 => true
  | _ => false

/-- The unsigned integer kinds the walker assigns to. -/
def unsignedKind (k : Kind) : Bool :=
  match k with
  | .Uint | .Uint8 | .Uint16 | .Uint32 | .Uint64 => true
  | _ => false

/-- The targets of the byte-field property: an unsigned kind, or a signed kind of at
least 16 bits. -/
def byteTarget (k : Kind) : Bool :=
  unsignedKind k || (signedKind k && decide (16 ≤ k.bits))

/-- A descriptor as the spec's data model has it: not skipped, a width in 1..64 and
a supported integer kind. -/
def StructField.wellFormed (f : StructField) : Bool :=
  f.described && decide (1 ≤ f.bitWidth) && decide (f.bitWidth ≤ 64) && supportedKind f.kind

/-- An exported field declared as `name kind` with the tag `bits:"tag"`, holding 0. -/
def field (name : String) (kind : Kind) (tag : String) : StructField :=
  ⟨name, true, some tag, kind, 0⟩

/-- The struct `SingleByte` of the tests. -/
def SingleByte : List StructField :=
  [field "Field1" .Uint8 "8"]

/-- The struct `MultipleBytes` of the tests. -/
def MultipleBytes : List StructField :=
  [field "Field1" .Uint8 "4", field "Field2" .Uint8 "4", field "Field3" .Uint8 "6",
   field "Field4" .Uint8 "2"]

/-- The struct `MixedInts` of the tests. -/
def MixedInts : List StructField :=
  [field "U8" .Uint8 "8", field "I16" .Int16 "8", field "U32" .Uint32 "8"]

/-! ## Ghosts for the claims about single steps -/

/-- The loop of `readBits` together with a ghost: the pairs `(result, bitsToRead)` at
each execution of `result << bitsToRead`, in the order of the iterations.  The
outcome is the one of `readBitsLoop` (`readBitsLoopTraced_outcome`). -/
def readBitsLoopTraced (data : List Byte) :
    Nat → Nat → Int → Int → ReadOutcome × List (Nat × Nat)
  | fuel, result, offset, bitsRemaining =>
    if bitsRemaining > 0 then
      match fuel with
      | 0 => (.panicked, [])
      | fuel + 1 =>
        let bytePos := offset.tdiv 8
        let bitPos := offset.tmod 8
        if bytePos ≥ (data.length : Int) then
          (.ret 0 (some .notEnoughData), [])
        else
          let bitsInByte := 8 - bitPos
          let bitsToRead := if bitsInByte > bitsRemaining then bitsRemaining else bitsInByte
          let mask := ((1 <<< bitsToRead.toNat) % 256 + 255) % 256
          if bytePos < 0 then
            (.panicked, [])
          else
            let bits := ((data.getD bytePos.toNat 0).val >>> (8 - bitPos - bitsToRead).toNat) &&& mask
            let shifted := ((result <<< bitsToRead.toNat) % 2 ^ 64) ||| bits
            let r := readBitsLoopTraced data fuel shifted (offset + bitsToRead)
              (bitsRemaining - bitsToRead)
            (r.1, (result, bitsToRead.toNat) :: r.2)
    else
      (.ret result none, [])

/-- The shifts `result << bitsToRead` a call `readBits(data, offset, count)` executes:
the value of `result` before each shift and the shift distance. -/
def readBitsShifts (data : List Byte) (offset count : Int) : List (Nat × Nat) :=
  if count > 64 then [] else (readBitsLoopTraced data count.toNat 0 offset count).2

/-- The number of bits by which an iteration moves the cursor. -/
def FieldStep.advance : FieldStep → Int
  | .assign _ bitCount => bitCount
  | _ => 0

/-- The field an iteration leaves behind. -/
def FieldStep.store (s : FieldStep) (f : StructField) : StructField :=
  match s with
  | .assign v _ => f.set v
  | _ => f

/-- The cursor after iteration `k` of a walk: the cursor the next iteration starts
with or, after the last iteration entered, the cursor the call ends with. -/
def cursorAfter (r : WalkResult) (k : Nat) : Int :=
  (r.cursors[k + 1]?).getD r.bitOffset

/-! ## Arithmetic of bit windows -/

theorem bitAt_le_one (data : List Byte) (j : Nat) : bitAt data j ≤ 1 := by
  unfold bitAt
  omega

theorem window_zero (data : List Byte) (offset : Nat) : window data offset 0 = 0 := by
  simp [window]

theorem window_succ (data : List Byte) (offset n : Nat) :
    window data offset (n + 1) = window data offset n * 2 + bitAt data (offset + n) := by
  unfold window
  rw [Finset.sum_range_succ, Finset.sum_mul]
  have hlast : n + 1 - 1 - n = 0 := by omega
  rw [hlast, pow_zero, mul_one]
  congr 1
  apply Finset.sum_congr rfl
  intro i hi
  have hi2 : i < n := Finset.mem_range.mp hi
  have hexp : n + 1 - 1 - i = (n - 1 - i) + 1 := by omega
  rw [hexp, pow_succ, mul_assoc]

theorem window_add (data : List Byte) (offset a b : Nat) :
    window data offset (a + b) = window data offset a * 2 ^ b + window data (offset + a) b := by
  induction b with
  | zero => simp [window_zero]
  | succ b ih =>
    rw [← Nat.add_assoc, window_succ, ih, window_succ, pow_succ, Nat.add_assoc offset a b]
    ring

theorem window_lt (data : List Byte) (offset n : Nat) : window data offset n < 2 ^ n := by
  induction n with
  | zero => simp [window_zero]
  | succ n ih =>
    rw [window_succ, pow_succ]
    have := bitAt_le_one data (offset + n)
    omega

/-- The low `k` bits of `x`, read from bit `k - 1` down to bit `0`. -/
theorem mod_two_pow_eq_sum (x k : Nat) :
    x % 2 ^ k = ∑ i ∈ Finset.range k, x / 2 ^ (k - 1 - i) % 2 * 2 ^ (k - 1 - i) := by
  induction k with
  | zero => simp [Nat.mod_one]
  | succ k ih =>
    rw [Finset.sum_range_succ']
    have hshift : ∀ i ∈ Finset.range k,
        x / 2 ^ (k + 1 - 1 - (i + 1)) % 2 * 2 ^ (k + 1 - 1 - (i + 1))
          = x / 2 ^ (k - 1 - i) % 2 * 2 ^ (k - 1 - i) := by
      intro i hi
      have hi2 : i < k := Finset.mem_range.mp hi
      have hexp : k + 1 - 1 - (i + 1) = k - 1 - i := by omega
      rw [hexp]
    rw [Finset.sum_congr rfl hshift, ← ih, Nat.mod_pow_succ]
    have h0 : k + 1 - 1 - 0 = k := by omega
    rw [h0]
    ring

/-- One iteration of the reader takes the next `k` bits of the current byte. -/
theorem chunk_eq_window (data : List Byte) (offset k : Nat) (hk : k ≤ 8 - offset % 8) :
    (data.getD (offset / 8) 0).val / 2 ^ (8 - offset % 8 - k) % 2 ^ k = window data offset k := by
  rw [mod_two_pow_eq_sum]
  unfold window
  apply Finset.sum_congr rfl
  intro i hi
  have hi2 : i < k := Finset.mem_range.mp hi
  unfold bitAt
  have hq : (offset + i) / 8 = offset / 8 := by omega
  have hr : 7 - (offset + i) % 8 = (8 - offset % 8 - k) + (k - 1 - i) := by omega
  rw [hq, hr, pow_add, Nat.div_div_eq_div_mul]

/-! ## The reader loop -/

theorem byte_mask_eq (k : Nat) (h1 : 1 ≤ k) (h8 : k ≤ 8) :
    ((1 <<< k) % 256 + 255) % 256 = 2 ^ k - 1 := by
  interval_cases k <;> rfl

theorem shift_or_eq_add (result c k chunk : Nat) (hres : result < 2 ^ c) (hck : c + k ≤ 64)
    (hchunk : chunk < 2 ^ k) :
    ((result <<< k) % 2 ^ 64) ||| chunk = result * 2 ^ k + chunk := by
  have hlt : result * 2 ^ k < 2 ^ 64 := by
    calc result * 2 ^ k < 2 ^ c * 2 ^ k := Nat.mul_lt_mul_of_pos_right hres (Nat.two_pow_pos k)
      _ = 2 ^ (c + k) := (pow_add 2 c k).symm
      _ ≤ 2 ^ 64 := Nat.pow_le_pow_right (by decide) hck
  rw [Nat.shiftLeft_eq, Nat.mod_eq_of_lt hlt, Nat.mul_comm result, ← Nat.mul_add_lt_is_or hchunk]

/-- One iteration of the loop at a non-negative offset inside the buffer. -/
theorem readBitsLoop_step (data : List Byte) (fuel result off rem : Nat)
    (hrem : 0 < rem) (hin : off / 8 < data.length) :
    readBitsLoop data (fuel + 1) result (off : Int) (rem : Int)
      = readBitsLoop data fuel
          (((result <<< min (8 - off % 8) rem) % 2 ^ 64) ||| window data off (min (8 - off % 8) rem))
          ((off + min (8 - off % 8) rem : Nat) : Int) ((rem - min (8 - off % 8) rem : Nat) : Int) := by
  rw [readBitsLoop]
  have hpos : ((rem : Int) > 0) := by omega
  have hdiv : (off : Int).tdiv 8 = ((off / 8 : Nat) : Int) := by
    rw [Int.ofNat_tdiv]; rfl
  have hmod : (off : Int).tmod 8 = ((off % 8 : Nat) : Int) := by
    rw [Int.ofNat_tmod]; rfl
  simp only [hpos, if_true, hdiv, hmod]
  have hk : (if 8 - ((off % 8 : Nat) : Int) > (rem : Int) then (rem : Int) else 8 - ((off % 8 : Nat) : Int))
      = ((min (8 - off % 8) rem : Nat) : Int) := by
    split <;> omega
  have hge : ¬ (((off / 8 : Nat) : Int) ≥ (data.length : Int)) := by omega
  have hneg : ¬ (((off / 8 : Nat) : Int) < 0) := by omega
  have hsh : (8 - ((off % 8 : Nat) : Int) - ((min (8 - off % 8) rem : Nat) : Int)).toNat
      = 8 - off % 8 - min (8 - off % 8) rem := by omega
  have hk1 : 1 ≤ min (8 - off % 8) rem := by omega
  have hk8 : min (8 - off % 8) rem ≤ 8 := by omega
  simp only [hk, hge, hneg, if_false, Int.toNat_ofNat, hsh, byte_mask_eq _ hk1 hk8,
    Nat.and_pow_two_sub_one_eq_mod, Nat.shiftRight_eq_div_pow]
  rw [chunk_eq_window data off _ (Nat.min_le_left _ _)]
  congr 1
  omega

/-- One iteration of the loop at a non-negative offset past the end of the buffer. -/
theorem readBitsLoop_past_end (data : List Byte) (fuel result off rem : Nat)
    (hrem : 0 < rem) (hout : data.length ≤ off / 8) :
    readBitsLoop data (fuel + 1) result (off : Int) (rem : Int)
      = .ret 0 (some .notEnoughData) := by
  rw [readBitsLoop]
  have hpos : ((rem : Int) > 0) := by omega
  have hdiv : (off : Int).tdiv 8 = ((off / 8 : Nat) : Int) := by
    rw [Int.ofNat_tdiv]; rfl
  have hge : ((off / 8 : Nat) : Int) ≥ (data.length : Int) := by omega
  simp only [hpos, if_true, hdiv, hge]

theorem readBitsLoop_done (data : List Byte) (fuel result : Nat) (offset : Int) :
    readBitsLoop data fuel result offset 0 = .ret result none := by
  cases fuel <;> simp [readBitsLoop]

theorem readBitsLoop_nonpos (data : List Byte) (fuel result : Nat) (offset rem : Int)
    (h : rem ≤ 0) : readBitsLoop data fuel result offset rem = .ret result none := by
  have hn : ¬ (rem > 0) := by omega
  cases fuel <;> simp [readBitsLoop, hn]

/-- The fuel of the loop is never used up: any two amounts of fuel of at least
`bitsRemaining` give the same outcome, for every offset, negative ones included. -/
theorem readBitsLoop_fuel (data : List Byte) :
    ∀ (fuel1 fuel2 result : Nat) (offset rem : Int), rem.toNat ≤ fuel1 → rem.toNat ≤ fuel2 →
      readBitsLoop data fuel1 result offset rem = readBitsLoop data fuel2 result offset rem := by
  intro fuel1
  induction fuel1 with
  | zero =>
    intro fuel2 result offset rem h1 _
    have hle : rem ≤ 0 := by omega
    rw [readBitsLoop_nonpos data 0 result offset rem hle,
      readBitsLoop_nonpos data fuel2 result offset rem hle]
  | succ fuel1 ih =>
    intro fuel2 result offset rem h1 h2
    rcases Int.le_or_lt rem 0 with hle | hpos
    · rw [readBitsLoop_nonpos data _ result offset rem hle,
        readBitsLoop_nonpos data fuel2 result offset rem hle]
    · obtain ⟨f2, rfl⟩ : ∃ f2, fuel2 = f2 + 1 := ⟨fuel2 - 1, by omega⟩
      rw [readBitsLoop, readBitsLoop]
      have hgt : rem > 0 := hpos
      have hmod : offset.tmod 8 < 8 := Int.tmod_lt_of_pos offset (by decide)
      simp only [hgt, if_true]
      split
      · rfl
      · split
        · rfl
        · apply ih
          · split <;> omega
          · split <;> omega

/-- Loop invariant, in-bounds case: the accumulator is extended by the window that
is still to be read, and no shift drops a set bit. -/
theorem readBitsLoop_window (data : List Byte) :
    ∀ (fuel result off rem c : Nat), rem ≤ fuel → result < 2 ^ c → c + rem ≤ 64 →
      off + rem ≤ 8 * data.length →
      readBitsLoop data fuel result (off : Int) (rem : Int)
        = .ret (result * 2 ^ rem + window data off rem) none := by
  intro fuel
  induction fuel with
  | zero =>
    intro result off rem c hf _ _ _
    have h0 : rem = 0 := by omega
    subst h0
    simpa [window_zero] using readBitsLoop_done data 0 result (off : Int)
  | succ fuel ih =>
    intro result off rem c hf hres hc hb
    rcases Nat.eq_zero_or_pos rem with h0 | hpos
    · subst h0
      simpa [window_zero] using readBitsLoop_done data (fuel + 1) result (off : Int)
    · have hin : off / 8 < data.length := by omega
      rw [readBitsLoop_step data fuel result off rem hpos hin]
      have hkle : min (8 - off % 8) rem ≤ rem := Nat.min_le_right _ _
      have hk1 : 1 ≤ min (8 - off % 8) rem := by omega
      have hchunk := window_lt data off (min (8 - off % 8) rem)
      rw [shift_or_eq_add result c _ _ hres (by omega) hchunk]
      have hres2 : result * 2 ^ min (8 - off % 8) rem + window data off (min (8 - off % 8) rem)
          < 2 ^ (c + min (8 - off % 8) rem) := by
        rw [pow_add]
        have h1 : (result + 1) * 2 ^ min (8 - off % 8) rem ≤ 2 ^ c * 2 ^ min (8 - off % 8) rem :=
          Nat.mul_le_mul_right _ hres
        rw [Nat.add_mul, Nat.one_mul] at h1
        omega
      rw [ih _ _ _ (c + min (8 - off % 8) rem) (by omega) hres2 (by omega) (by omega)]
      congr 1
      have hsplit : rem = min (8 - off % 8) rem + (rem - min (8 - off % 8) rem) := by omega
      conv_rhs => rw [hsplit, window_add, pow_add]
      ring

/-- Loop invariant, out-of-bounds case: the loop ends in the range error. -/
theorem readBitsLoop_short (data : List Byte) :
    ∀ (fuel result off rem : Nat), rem ≤ fuel → 0 < rem → 8 * data.length < off + rem →
      readBitsLoop data fuel result (off : Int) (rem : Int) = .ret 0 (some .notEnoughData) := by
  intro fuel
  induction fuel with
  | zero =>
    intro result off rem hf hpos _
    omega
  | succ fuel ih =>
    intro result off rem hf hpos hb
    rcases Nat.lt_or_ge (off / 8) data.length with hin | hout
    · rw [readBitsLoop_step data fuel result off rem hpos hin]
      apply ih
      · omega
      · omega
      · omega
    · exact readBitsLoop_past_end data fuel result off rem hpos hout

/-! ## The reader as a function of its arguments -/

theorem readBits_too_many (data : List Byte) (offset count : Int) (h : 64 < count) :
    readBits data offset count = .ret 0 (some .tooManyBits) := by
  unfold readBits
  simp [h]

theorem readBits_in_bounds (data : List Byte) (off cnt : Nat) (h64 : cnt ≤ 64)
    (hb : off + cnt ≤ 8 * data.length) :
    readBits data (off : Int) (cnt : Int) = .ret (window data off cnt) none := by
  unfold readBits
  have hn : ¬ ((cnt : Int) > 64) := by omega
  simp only [hn, if_false, Int.toNat_ofNat]
  rw [readBitsLoop_window data cnt 0 off cnt 0 (Nat.le_refl _) (by simp) (by omega) hb]
  simp

theorem readBits_out_of_bounds (data : List Byte) (off cnt : Nat) (h1 : 1 ≤ cnt) (h64 : cnt ≤ 64)
    (hb : 8 * data.length < off + cnt) :
    readBits data (off : Int) (cnt : Int) = .ret 0 (some .notEnoughData) := by
  unfold readBits
  have hn : ¬ ((cnt : Int) > 64) := by omega
  simp only [hn, if_false, Int.toNat_ofNat]
  exact readBitsLoop_short data cnt 0 off cnt (Nat.le_refl _) h1 hb

/-- The reader at a negative offset above -8: `offset / 8` truncates to byte 0. -/
theorem readBits_negative_offset :
    readBits [0b11011010, 0b10101100] (-3) 5 = .ret 3 none := by decide

/-- The reader at an offset of -8 or below indexes the buffer at a negative
position. -/
theorem readBits_negative_index :
    readBits [0b11011010, 0b10101100] (-8) 5 = .panicked := by decide

/-- A count of zero or less reads nothing. -/
theorem readBits_nonpositive_count (data : List Byte) (offset count : Int) (h : count ≤ 0) :
    readBits data offset count = .ret 0 none := by
  unfold readBits
  have hn : ¬ (count > 64) := by omega
  simp only [hn, if_false]
  exact readBitsLoop_nonpos data _ 0 offset count h

/-- C1: for every buffer, every offset >= 0 and every count in 1..64 with
offset + count <= 8*len(data), readBits returns without error the big-endian value
of the window: the sum over i < count of b(offset+i) * 2^(count-1-i), where b(j) is
bit (7 - j mod 8) of byte data[j / 8]. -/
theorem readBits_returns_window (data : List Byte) (offset count : Int)
    (h0 : 0 ≤ offset) (h1 : 1 ≤ count) (h64 : count ≤ 64)
    (hb : offset + count ≤ 8 * (data.length : Int)) :
    readBits data offset count
      = .ret (∑ i ∈ Finset.range count.toNat,
                (data.getD ((offset.toNat + i) / 8) 0).val / 2 ^ (7 - (offset.toNat + i) % 8) % 2
                  * 2 ^ (count.toNat - 1 - i)) none := by
  obtain ⟨off, rfl⟩ := Int.eq_ofNat_of_zero_le h0
  obtain ⟨cnt, rfl⟩ := Int.eq_ofNat_of_zero_le (by omega : (0 : Int) ≤ count)
  rw [readBits_in_bounds data off cnt (by omega) (by omega)]
  rfl

/-- C1 at a window of 64 bits that starts at bit 3 of the first of nine bytes. -/
theorem readBits_returns_window_witness :
    readBits [1, 2, 3, 4, 5, 6, 7, 8, 9] 3 64
      = .ret (∑ i ∈ Finset.range (64 : Int).toNat,
                (([1, 2, 3, 4, 5, 6, 7, 8, 9] : List Byte).getD (((3 : Int).toNat + i) / 8) 0).val
                    / 2 ^ (7 - ((3 : Int).toNat + i) % 8) % 2
                  * 2 ^ ((64 : Int).toNat - 1 - i)) none :=
  readBits_returns_window [1, 2, 3, 4, 5, 6, 7, 8, 9] 3 64 (by decide) (by decide) (by decide)
    (by decide)

/-- C8: for every buffer, every offset >= 0 and every count in 1..64, readBits
returns an error if and only if offset + count > 8*len(data); the error is the range
error and the value returned with it is 0; otherwise it returns a value and no
error. -/
theorem readBits_error_iff (data : List Byte) (offset count : Int)
    (h0 : 0 ≤ offset) (h1 : 1 ≤ count) (h64 : count ≤ 64) :
    ((∃ v e, readBits data offset count = .ret v (some e))
        ↔ 8 * (data.length : Int) < offset + count)
      ∧ (∀ v e, readBits data offset count = .ret v (some e) → v = 0 ∧ e = .notEnoughData)
      ∧ (offset + count ≤ 8 * (data.length : Int) → ∃ v, readBits data offset count = .ret v none) := by
  obtain ⟨off, rfl⟩ := Int.eq_ofNat_of_zero_le h0
  obtain ⟨cnt, rfl⟩ := Int.eq_ofNat_of_zero_le (by omega : (0 : Int) ≤ count)
  rcases Nat.lt_or_ge (8 * data.length) (off + cnt) with hout | hin
  · have hr := readBits_out_of_bounds data off cnt (by omega) (by omega) hout
    rw [hr]
    refine ⟨⟨fun _ => by omega, fun _ => ⟨0, .notEnoughData, rfl⟩⟩, ?_, fun h => by omega⟩
    intro v e h
    injection h with hv he
    injection he with he
    exact ⟨hv.symm, he.symm⟩
  · have hr := readBits_in_bounds data off cnt (by omega) hin
    rw [hr]
    refine ⟨⟨?_, fun h => by omega⟩, ?_, fun _ => ⟨_, rfl⟩⟩
    · rintro ⟨v, e, h⟩
      injection h with _ he
      cases he
    · intro v e h
      injection h with _ he
      cases he

/-- C8 at offset 12, count 6 in a two-byte buffer: 18 > 16. -/
theorem readBits_error_iff_witness :
    ((∃ v e, readBits [0b11011010, 0b10101100] 12 6 = .ret v (some e))
        ↔ 8 * (([0b11011010, 0b10101100] : List Byte).length : Int) < 12 + 6)
      ∧ (∀ v e, readBits [0b11011010, 0b10101100] 12 6 = .ret v (some e)
          → v = 0 ∧ e = .notEnoughData)
      ∧ ((12 : Int) + 6 ≤ 8 * (([0b11011010, 0b10101100] : List Byte).length : Int)
          → ∃ v, readBits [0b11011010, 0b10101100] 12 6 = .ret v none) :=
  readBits_error_iff [0b11011010, 0b10101100] 12 6 (by decide) (by decide) (by decide)

/-! ## One iteration of the walker -/

theorem loopBody_skip (data : List Byte) (off : Int) (f : StructField)
    (h : f.described = false) : loopBody data off f = .skip := by
  unfold StructField.described at h
  unfold loopBody
  cases hexp : f.exported with
  | false => simp
  | true =>
    cases htag : f.bitsTag with
    | none => simp
    | some t => simp [hexp, htag] at h

theorem bitWidth_of_not_described (f : StructField) (h : f.described = false) :
    f.bitWidth = 0 := by
  unfold StructField.described at h
  unfold StructField.bitWidth
  cases hexp : f.exported with
  | false => simp
  | true =>
    cases htag : f.bitsTag with
    | none => simp
    | some t => simp [hexp, htag] at h

theorem bitWidth_of_tag (f : StructField) (t : String) (w : Int) (hexp : f.exported = true)
    (htag : f.bitsTag = some t) (hw : Atoi t = some w) : f.bitWidth = w := by
  simp [StructField.bitWidth, hexp, htag, hw]

/-- What a well-formed descriptor consists of. -/
theorem wellFormed_parts (f : StructField) (h : f.wellFormed = true) :
    f.exported = true ∧ (∃ t, f.bitsTag = some t ∧ Atoi t = some f.bitWidth)
      ∧ 1 ≤ f.bitWidth ∧ f.bitWidth ≤ 64 ∧ supportedKind f.kind = true := by
  unfold StructField.wellFormed StructField.described at h
  simp only [Bool.and_eq_true, decide_eq_true_eq] at h
  obtain ⟨⟨⟨⟨hexp, htag⟩, h1⟩, h64⟩, hk⟩ := h
  refine ⟨hexp, ?_, h1, h64, hk⟩
  cases ht : f.bitsTag with
  | none => simp [ht] at htag
  | some t =>
    refine ⟨t, rfl, ?_⟩
    cases ha : Atoi t with
    | none =>
      have : f.bitWidth = 0 := by simp [StructField.bitWidth, hexp, ht, ha]
      omega
    | some w => rw [bitWidth_of_tag f t w hexp ht ha]

theorem setFieldValue_of_supported (k : Kind) (raw : Nat) (h : supportedKind k = true) :
    ∃ v, setFieldValue k raw = some v := by
  cases k <;> simp [supportedKind, setFieldValue] at h ⊢

/-- The walker stops at a well-formed descriptor that does not fit. -/
theorem loopBody_wellFormed_short (data : List Byte) (off : Int) (f : StructField)
    (hf : f.wellFormed = true) (hshort : (data.length : Int) * 8 - off < f.bitWidth) :
    loopBody data off f
      = .fail (.notEnoughBits f.name f.bitWidth ((data.length : Int) * 8 - off)) := by
  obtain ⟨hexp, ⟨t, htag, hw⟩, h1, _, _⟩ := wellFormed_parts f hf
  have hpos : ¬ (f.bitWidth ≤ 0) := by omega
  simp [loopBody, hexp, htag, hw, hpos, hshort]

/-- The walker assigns a well-formed descriptor that fits. -/
theorem loopBody_wellFormed_fits (data : List Byte) (off : Int) (f : StructField)
    (hf : f.wellFormed = true) (h0 : 0 ≤ off) (hfits : f.bitWidth ≤ (data.length : Int) * 8 - off) :
    ∃ v, setFieldValue f.kind (window data off.toNat f.bitWidth.toNat) = some v
      ∧ loopBody data off f = .assign v f.bitWidth := by
  obtain ⟨hexp, ⟨t, htag, hw⟩, h1, h64, hk⟩ := wellFormed_parts f hf
  obtain ⟨v, hv⟩ := setFieldValue_of_supported f.kind (window data off.toNat f.bitWidth.toNat) hk
  refine ⟨v, hv, ?_⟩
  have hpos : ¬ (f.bitWidth ≤ 0) := by omega
  have hns : ¬ ((data.length : Int) * 8 - off < f.bitWidth) := by omega
  have hread : readBits data off f.bitWidth
      = .ret (window data off.toNat f.bitWidth.toNat) none := by
    have := readBits_in_bounds data off.toNat f.bitWidth.toNat (by omega) (by omega)
    rwa [Int.toNat_of_nonneg h0, Int.toNat_of_nonneg (by omega : (0 : Int) ≤ f.bitWidth)] at this
  simp [loopBody, hexp, htag, hw, hpos, hns, hread, hv]

/-- Everything that holds when an iteration assigns. -/
theorem loopBody_assign_inv (data : List Byte) (off : Int) (f : StructField) (v w : Int)
    (h : loopBody data off f = .assign v w) :
    f.exported = true ∧ (∃ t, f.bitsTag = some t ∧ Atoi t = some w) ∧ 0 < w
      ∧ w ≤ (data.length : Int) * 8 - off
      ∧ ∃ raw, readBits data off w = .ret raw none ∧ setFieldValue f.kind raw = some v := by
  unfold loopBody at h
  cases hexp : f.exported with
  | false => simp [hexp] at h
  | true =>
    cases htag : f.bitsTag with
    | none => simp [hexp, htag] at h
    | some t =>
      cases ha : Atoi t with
      | none => simp [hexp, htag, ha] at h
      | some w0 =>
        simp only [hexp, htag, ha, Bool.not_true, Bool.false_eq_true, if_false] at h
        by_cases hle : w0 ≤ 0
        · simp [hle] at h
        · by_cases hshort : (data.length : Int) * 8 - off < w0
          · simp [hle, hshort] at h
          · simp only [hle, hshort, if_false] at h
            cases hr : readBits data off w0 with
            | panicked => simp [hr] at h
            | ret raw err =>
              cases err with
              | some e => simp [hr] at h
              | none =>
                cases hs : setFieldValue f.kind raw with
                | none => simp [hr, hs] at h
                | some v0 =>
                  simp only [hr, hs] at h
                  injection h with hv hw
                  subst hv; subst hw
                  exact ⟨rfl, ⟨t, rfl, ha⟩, by omega, by omega, raw, hr, hs⟩

theorem loopBody_skip_inv (data : List Byte) (off : Int) (f : StructField)
    (h : loopBody data off f = .skip) : f.described = false := by
  unfold loopBody at h
  unfold StructField.described
  cases hexp : f.exported with
  | false => simp
  | true =>
    cases htag : f.bitsTag with
    | none => simp
    | some t =>
      exfalso
      simp only [hexp, htag, Bool.not_true, Bool.false_eq_true, if_false] at h
      split at h
      · cases h
      · split at h
        · cases h
        · split at h
          · cases h
          · split at h
            · cases h
            · cases h
            · split at h <;> cases h

/-! ## The walk over the fields -/

theorem totalWidth_nil : totalWidth [] = 0 := rfl

theorem totalWidth_cons (f : StructField) (rest : List StructField) :
    totalWidth (f :: rest) = f.bitWidth + totalWidth rest := by
  simp [totalWidth]

theorem totalWidth_append (pre post : List StructField) :
    totalWidth (pre ++ post) = totalWidth pre + totalWidth post := by
  simp [totalWidth]

theorem unpackFields_cons_skip (data : List Byte) (f : StructField) (rest : List StructField)
    (off : Int) (h : loopBody data off f = .skip) :
    unpackFields data (f :: rest) off
      = ⟨f :: (unpackFields data rest off).fields, off :: (unpackFields data rest off).cursors,
          (unpackFields data rest off).bitOffset, (unpackFields data rest off).exit⟩ := by
  simp [unpackFields, h]

theorem unpackFields_cons_assign (data : List Byte) (f : StructField) (rest : List StructField)
    (off v w : Int) (h : loopBody data off f = .assign v w) :
    unpackFields data (f :: rest) off
      = ⟨f.set v :: (unpackFields data rest (off + w)).fields,
          off :: (unpackFields data rest (off + w)).cursors,
          (unpackFields data rest (off + w)).bitOffset,
          (unpackFields data rest (off + w)).exit⟩ := by
  simp [unpackFields, h]

theorem unpackFields_cons_fail (data : List Byte) (f : StructField) (rest : List StructField)
    (off : Int) (e : UnpackError) (h : loopBody data off f = .fail e) :
    unpackFields data (f :: rest) off = ⟨f :: rest, [off], off, .returned (some e)⟩ := by
  simp [unpackFields, h]

theorem unpackFields_cons_panic (data : List Byte) (f : StructField) (rest : List StructField)
    (off : Int) (h : loopBody data off f = .panic) :
    unpackFields data (f :: rest) off = ⟨f :: rest, [off], off, .panicked⟩ := by
  simp [unpackFields, h]

/-- A successful walk, field by field: the cursor before field `k` is the start
cursor plus the widths of the fields before it, a described field holds the
coercion of the bits read there, a skipped field is unchanged. -/
theorem unpackFields_ok (data : List Byte) :
    ∀ (fields : List StructField) (off : Int),
      (unpackFields data fields off).exit = .returned none →
      ∀ (k : Nat) (f : StructField), fields[k]? = some f →
        (unpackFields data fields off).cursors[k]? = some (off + totalWidth (fields.take k))
          ∧ (f.described = true → ∃ raw v,
                readBits data (off + totalWidth (fields.take k)) f.bitWidth = .ret raw none
                  ∧ setFieldValue f.kind raw = some v
                  ∧ (unpackFields data fields off).fields[k]? = some (f.set v))
          ∧ (f.described = false → (unpackFields data fields off).fields[k]? = some f) := by
  intro fields
  induction fields with
  | nil => intro off _ k f hk; simp at hk
  | cons g rest ih =>
    intro off hok k f hk
    cases hstep : loopBody data off g with
    | skip =>
      rw [unpackFields_cons_skip data g rest off hstep] at hok ⊢
      have hg := loopBody_skip_inv data off g hstep
      cases k with
      | zero =>
        simp only [List.getElem?_cons_zero, Option.some.injEq] at hk
        subst hk
        simp [totalWidth_nil, hg]
      | succ k =>
        simp only [List.getElem?_cons_succ] at hk
        have := ih off hok k f hk
        simpa [totalWidth_cons, bitWidth_of_not_described g hg] using this
    | assign v w =>
      rw [unpackFields_cons_assign data g rest off v w hstep] at hok ⊢
      obtain ⟨hexp, ⟨t, htag, hw⟩, hpos, hfit, raw, hread, hset⟩ :=
        loopBody_assign_inv data off g v w hstep
      have hbw := bitWidth_of_tag g t w hexp htag hw
      cases k with
      | zero =>
        simp only [List.getElem?_cons_zero, Option.some.injEq] at hk
        subst hk
        have hd : g.described = true := by simp [StructField.described, hexp, htag]
        simp only [List.take_zero, totalWidth_nil, add_zero, List.getElem?_cons_zero, hd, hbw,
          true_and, forall_true_left, Bool.true_eq_false, false_implies, and_true]
        exact ⟨raw, v, hread, hset, rfl⟩
      | succ k =>
        simp only [List.getElem?_cons_succ] at hk
        have := ih (off + w) hok k f hk
        simpa [totalWidth_cons, hbw, add_assoc] using this
    | fail e =>
      rw [unpackFields_cons_fail data g rest off e hstep] at hok
      cases hok
    | panic =>
      rw [unpackFields_cons_panic data g rest off hstep] at hok
      cases hok

/-- The cursor never goes below its start value. -/
theorem unpackFields_bitOffset_ok (data : List Byte) :
    ∀ (fields : List StructField) (off : Int),
      (unpackFields data fields off).exit = .returned none →
      (unpackFields data fields off).bitOffset = off + totalWidth fields := by
  intro fields
  induction fields with
  | nil => intro off _; simp [unpackFields, totalWidth_nil]
  | cons g rest ih =>
    intro off hok
    cases hstep : loopBody data off g with
    | skip =>
      rw [unpackFields_cons_skip data g rest off hstep] at hok ⊢
      have hg := loopBody_skip_inv data off g hstep
      simpa [totalWidth_cons, bitWidth_of_not_described g hg] using ih off hok
    | assign v w =>
      rw [unpackFields_cons_assign data g rest off v w hstep] at hok ⊢
      obtain ⟨hexp, ⟨t, htag, hw⟩, _, _, _⟩ := loopBody_assign_inv data off g v w hstep
      have hbw := bitWidth_of_tag g t w hexp htag hw
      simpa [totalWidth_cons, hbw, add_assoc] using ih (off + w) hok
    | fail e =>
      rw [unpackFields_cons_fail data g rest off e hstep] at hok
      cases hok
    | panic =>
      rw [unpackFields_cons_panic data g rest off hstep] at hok
      cases hok

/-- After a walk over `pre` that ends without error the loop goes on with `post`
from the cursor it has reached. -/
theorem unpackFields_append_ok (data : List Byte) (post : List StructField) :
    ∀ (pre : List StructField) (off : Int),
      (unpackFields data pre off).exit = .returned none →
      unpackFields data (pre ++ post) off
        = ⟨(unpackFields data pre off).fields
              ++ (unpackFields data post (unpackFields data pre off).bitOffset).fields,
            (unpackFields data pre off).cursors
              ++ (unpackFields data post (unpackFields data pre off).bitOffset).cursors,
            (unpackFields data post (unpackFields data pre off).bitOffset).bitOffset,
            (unpackFields data post (unpackFields data pre off).bitOffset).exit⟩ := by
  intro pre
  induction pre with
  | nil => intro off _; simp [unpackFields]
  | cons g rest ih =>
    intro off hok
    cases hstep : loopBody data off g with
    | skip =>
      rw [unpackFields_cons_skip data g rest off hstep] at hok
      rw [List.cons_append, unpackFields_cons_skip data g (rest ++ post) off hstep,
        unpackFields_cons_skip data g rest off hstep, ih off hok]
      simp
    | assign v w =>
      rw [unpackFields_cons_assign data g rest off v w hstep] at hok
      rw [List.cons_append, unpackFields_cons_assign data g (rest ++ post) off v w hstep,
        unpackFields_cons_assign data g rest off v w hstep, ih (off + w) hok]
      simp
    | fail e =>
      rw [unpackFields_cons_fail data g rest off e hstep] at hok
      cases hok
    | panic =>
      rw [unpackFields_cons_panic data g rest off hstep] at hok
      cases hok

theorem unpackFields_length (data : List Byte) :
    ∀ (fields : List StructField) (off : Int),
      (unpackFields data fields off).fields.length = fields.length := by
  intro fields
  induction fields with
  | nil => intro off; simp [unpackFields]
  | cons g rest ih =>
    intro off
    cases hstep : loopBody data off g with
    | skip => rw [unpackFields_cons_skip data g rest off hstep]; simp [ih]
    | assign v w => rw [unpackFields_cons_assign data g rest off v w hstep]; simp [ih]
    | fail e => rw [unpackFields_cons_fail data g rest off e hstep]
    | panic => rw [unpackFields_cons_panic data g rest off hstep]

theorem totalWidth_nonneg (l : List StructField)
    (hl : ∀ f ∈ l, f.described = true → f.wellFormed = true) : 0 ≤ totalWidth l := by
  induction l with
  | nil => simp [totalWidth_nil]
  | cons a l ihl =>
    rw [totalWidth_cons]
    have h1 := ihl (fun f hf => hl f (List.mem_cons_of_mem a hf))
    cases hd : a.described with
    | false => rw [bitWidth_of_not_described a hd]; omega
    | true =>
      have := (wellFormed_parts a (hl a (List.mem_cons_self a l) hd)).2.2.1
      omega

/-- A list of well-formed descriptors (and skipped fields) that fits is walked to
the end. -/
theorem unpackFields_fits (data : List Byte) :
    ∀ (fields : List StructField) (off : Int), 0 ≤ off →
      (∀ f ∈ fields, f.described = true → f.wellFormed = true) →
      off + totalWidth fields ≤ (data.length : Int) * 8 →
      (unpackFields data fields off).exit = .returned none := by
  intro fields
  induction fields with
  | nil => intro off _ _ _; simp [unpackFields]
  | cons g rest ih =>
    intro off h0 hwf hfit
    have hrest : ∀ f ∈ rest, f.described = true → f.wellFormed = true :=
      fun f hf => hwf f (List.mem_cons_of_mem g hf)
    have hrestnn := totalWidth_nonneg rest hrest
    rw [totalWidth_cons] at hfit
    cases hd : g.described with
    | false =>
      rw [unpackFields_cons_skip data g rest off (loopBody_skip data off g hd)]
      rw [bitWidth_of_not_described g hd] at hfit
      exact ih off h0 hrest (by omega)
    | true =>
      have hg := hwf g (List.mem_cons_self g rest) hd
      have hparts := wellFormed_parts g hg
      obtain ⟨v, _, hstep⟩ := loopBody_wellFormed_fits data off g hg h0 (by omega)
      rw [unpackFields_cons_assign data g rest off v g.bitWidth hstep]
      exact ih (off + g.bitWidth) (by omega) hrest (by omega)

/-- A list of well-formed descriptors (and skipped fields) that does not fit: the
walk stops at the first field whose end lies past the buffer, with the
insufficient-data error for that field. -/
theorem unpackFields_short (data : List Byte) :
    ∀ (fields : List StructField) (off : Int), 0 ≤ off → off ≤ (data.length : Int) * 8 →
      (∀ f ∈ fields, f.described = true → f.wellFormed = true) →
      (data.length : Int) * 8 < off + totalWidth fields →
      ∃ (i : Nat) (f : StructField), fields[i]? = some f
        ∧ (data.length : Int) * 8 < off + totalWidth (fields.take (i + 1))
        ∧ (∀ j, j < i → off + totalWidth (fields.take (j + 1)) ≤ (data.length : Int) * 8)
        ∧ (unpackFields data fields off).exit
            = .returned (some (.notEnoughBits f.name f.bitWidth
                ((data.length : Int) * 8 - (off + totalWidth (fields.take i)))))
        ∧ (unpackFields data fields off).fields.drop i = fields.drop i := by
  intro fields
  induction fields with
  | nil => intro off _ _ _ h; simp [totalWidth_nil] at h; omega
  | cons g rest ih =>
    intro off h0 hle hwf hshort
    have hrest : ∀ f ∈ rest, f.described = true → f.wellFormed = true :=
      fun f hf => hwf f (List.mem_cons_of_mem g hf)
    rw [totalWidth_cons] at hshort
    cases hd : g.described with
    | false =>
      have hw0 := bitWidth_of_not_described g hd
      rw [hw0] at hshort
      obtain ⟨i, f, hi, hover, hmin, hexit, hdrop⟩ := ih off h0 hle hrest (by omega)
      refine ⟨i + 1, f, by simpa using hi, ?_, ?_, ?_, ?_⟩
      · simpa [totalWidth_cons, hw0] using hover
      · intro j hj
        cases j with
        | zero => simp [totalWidth_cons, totalWidth_nil, hw0]; omega
        | succ j =>
          have := hmin j (by omega)
          simpa [totalWidth_cons, hw0] using this
      · rw [unpackFields_cons_skip data g rest off (loopBody_skip data off g hd)]
        simpa [totalWidth_cons, hw0] using hexit
      · rw [unpackFields_cons_skip data g rest off (loopBody_skip data off g hd)]
        simpa using hdrop
    | true =>
      have hg := hwf g (List.mem_cons_self g rest) hd
      have hparts := wellFormed_parts g hg
      rcases Int.lt_or_le ((data.length : Int) * 8 - off) g.bitWidth with hs | hfit
      · refine ⟨0, g, by simp, ?_, ?_, ?_, ?_⟩
        · simp [totalWidth_cons, totalWidth_nil]; omega
        · intro j hj; omega
        · rw [unpackFields_cons_fail data g rest off _ (loopBody_wellFormed_short data off g hg hs)]
          simp [totalWidth_nil]
        · rw [unpackFields_cons_fail data g rest off _ (loopBody_wellFormed_short data off g hg hs)]
      · obtain ⟨v, _, hstep⟩ := loopBody_wellFormed_fits data off g hg h0 hfit
        obtain ⟨i, f, hi, hover, hmin, hexit, hdrop⟩ :=
          ih (off + g.bitWidth) (by omega) (by omega) hrest (by omega)
        refine ⟨i + 1, f, by simpa using hi, ?_, ?_, ?_, ?_⟩
        · simpa [totalWidth_cons, add_assoc] using hover
        · intro j hj
          cases j with
          | zero => simp [totalWidth_cons, totalWidth_nil]; omega
          | succ j =>
            have := hmin j (by omega)
            simpa [totalWidth_cons, add_assoc] using this
        · rw [unpackFields_cons_assign data g rest off v g.bitWidth hstep]
          simpa [totalWidth_cons, add_assoc] using hexit
        · rw [unpackFields_cons_assign data g rest off v g.bitWidth hstep]
          simpa using hdrop

/-- A walk that ends without error has consumed a non-negative number of bits. -/
theorem totalWidth_nonneg_of_ok (data : List Byte) :
    ∀ (fields : List StructField) (off : Int),
      (unpackFields data fields off).exit = .returned none → 0 ≤ totalWidth fields := by
  intro fields
  induction fields with
  | nil => intro off _; simp [totalWidth_nil]
  | cons g rest ih =>
    intro off hok
    rw [totalWidth_cons]
    cases hstep : loopBody data off g with
    | skip =>
      rw [unpackFields_cons_skip data g rest off hstep] at hok
      rw [bitWidth_of_not_described g (loopBody_skip_inv data off g hstep)]
      have := ih off hok
      omega
    | assign v w =>
      rw [unpackFields_cons_assign data g rest off v w hstep] at hok
      obtain ⟨hexp, ⟨t, htag, hw⟩, hpos, _, _⟩ := loopBody_assign_inv data off g v w hstep
      rw [bitWidth_of_tag g t w hexp htag hw]
      have := ih (off + w) hok
      omega
    | fail e =>
      rw [unpackFields_cons_fail data g rest off e hstep] at hok
      cases hok
    | panic =>
      rw [unpackFields_cons_panic data g rest off hstep] at hok
      cases hok

/-- The field that follows a part walked without error, when its iteration
assigns: it holds the assigned value whatever comes after it. -/
theorem unpackFields_after_ok_assign (data : List Byte) (pre : List StructField)
    (f : StructField) (post : List StructField) (off v w : Int)
    (hpre : (unpackFields data pre off).exit = .returned none)
    (hstep : loopBody data (off + totalWidth pre) f = .assign v w) :
    (unpackFields data (pre ++ f :: post) off).fields[pre.length]? = some (f.set v) := by
  rw [unpackFields_append_ok data (f :: post) pre off hpre,
    unpackFields_bitOffset_ok data pre off hpre,
    unpackFields_cons_assign data f post _ v w hstep]
  have hlen := unpackFields_length data pre off
  simp only
  rw [List.getElem?_append_right (by omega)]
  simp [hlen]

/-- The field that follows a part walked without error, when its iteration fails:
the call returns that error and the field and the later ones are unchanged. -/
theorem unpackFields_after_ok_fail (data : List Byte) (pre : List StructField)
    (f : StructField) (post : List StructField) (off : Int) (e : UnpackError)
    (hpre : (unpackFields data pre off).exit = .returned none)
    (hstep : loopBody data (off + totalWidth pre) f = .fail e) :
    (unpackFields data (pre ++ f :: post) off).exit = .returned (some e)
      ∧ (unpackFields data (pre ++ f :: post) off).fields
          = (unpackFields data pre off).fields ++ f :: post := by
  rw [unpackFields_append_ok data (f :: post) pre off hpre,
    unpackFields_bitOffset_ok data pre off hpre,
    unpackFields_cons_fail data f post _ e hstep]
  exact ⟨rfl, rfl⟩

/-! ## Coercion to the kind of the field -/

theorem wrapSigned_of_lt (n x : Nat) (hn : 1 ≤ n) (hlt : x < 2 ^ (n - 1)) :
    wrapSigned n (x : Int) = (x : Int) := by
  have hle : 2 ^ (n - 1) ≤ 2 ^ n := Nat.pow_le_pow_right (by decide) (by omega)
  have h2 : x < 2 ^ n := by omega
  have hmod : (x : Int) % 2 ^ n = (x : Int) :=
    Int.emod_eq_of_lt (by omega) (by exact_mod_cast h2)
  have hlt2 : (x : Int) < 2 ^ (n - 1) := by exact_mod_cast hlt
  unfold wrapSigned
  rw [hmod]
  simp [hlt2]

/-- A value of fewer bits than a signed target is stored as it is. -/
theorem setFieldValue_signed (k : Kind) (raw w : Nat) (hk : signedKind k = true)
    (hraw : raw < 2 ^ w) (hw : w < k.bits) : setFieldValue k raw = some (raw : Int) := by
  have hb : 1 ≤ k.bits ∧ k.bits ≤ 64 := by
    cases k <;> simp [signedKind, Kind.bits] at hk ⊢
  have h1 : raw < 2 ^ (k.bits - 1) :=
    Nat.lt_of_lt_of_le hraw (Nat.pow_le_pow_right (by decide) (by omega))
  have h2 : raw < 2 ^ (64 - 1) :=
    Nat.lt_of_lt_of_le h1 (Nat.pow_le_pow_right (by decide) (by omega))
  have e1 := wrapSigned_of_lt 64 raw (by decide) h2
  have e2 := wrapSigned_of_lt k.bits raw hb.1 h1
  cases k <;> simp [signedKind] at hk <;> simp [setFieldValue, SetInt, e1, e2]

/-- An unsigned target keeps the low bits of the value, as many as it is wide. -/
theorem setFieldValue_unsigned (k : Kind) (raw : Nat) (hk : unsignedKind k = true)
    (hraw : raw < 2 ^ 64) : setFieldValue k raw = some ((raw % 2 ^ k.bits : Nat) : Int) := by
  have hm : raw % 2 ^ 64 = raw := Nat.mod_eq_of_lt hraw
  cases k <;> simp [unsignedKind] at hk <;> simp only [setFieldValue, SetUint, hm]

/-! ## The store -/

/-- An assignment changes the value of the field and nothing else. -/
theorem StructField.set_eq (f : StructField) (v : Int) :
    f.set v = ⟨f.name, f.exported, f.bitsTag, f.kind, v⟩ := rfl

theorem StructField.set_value (f : StructField) (v : Int) : (f.set v).value = v := rfl

theorem StructField.set_kind (f : StructField) (v : Int) : (f.set v).kind = f.kind := rfl

theorem StructField.set_name (f : StructField) (v : Int) : (f.set v).name = f.name := rfl

/-! ## The tests of the repository -/

/-- The test "single byte field". -/
theorem test_single_byte_field :
    Unpack [0b10101010] (.structPtr SingleByte)
      = ⟨[⟨"Field1", true, some "8", .Uint8, 0b10101010⟩], [0], 8, .returned none⟩ := by decide

/-- The tests "nil destination", "non-pointer destination" and "non-struct
destination". -/
theorem test_invalid_destination :
    (Unpack [0] (.nonPointer .Invalid)).exit = .returned (some .notPointer)
      ∧ (Unpack [0] (.nonPointer .Struct)).exit = .returned (some .notPointer)
      ∧ (Unpack [0] (.pointerTo .Int)).exit = .returned (some (.notStruct .Int)) := by decide

/-! ## The claims about `Unpack` -/

/-- C2: on every buffer and field list on which Unpack succeeds, the cursor before
field k is the sum of the bit widths of the fields before it, and a described field
k holds the coercion to its kind of the value readBits returns for that offset and
the field's width: its name, export mark, tag and kind are as before and its value is
that number (a skipped field keeps its value). -/
theorem Unpack_reads_at_width_sums (data : List Byte) (fields : List StructField)
    (hok : (Unpack data (.structPtr fields)).exit = .returned none)
    (k : Nat) (f : StructField) (hk : fields[k]? = some f) :
    (Unpack data (.structPtr fields)).cursors[k]? = some (totalWidth (fields.take k))
      ∧ (f.described = true → ∃ raw v,
            readBits data (totalWidth (fields.take k)) f.bitWidth = .ret raw none
              ∧ setFieldValue f.kind raw = some v
              ∧ (Unpack data (.structPtr fields)).fields[k]?
                  = some ⟨f.name, f.exported, f.bitsTag, f.kind, v⟩)
      ∧ (f.described = false → (Unpack data (.structPtr fields)).fields[k]? = some f) := by
  have h := unpackFields_ok data fields 0 hok k f hk
  simpa [Unpack, StructField.set] using h

/-- C2 on the test "multiple fields across bytes": the four fields hold 13, 10, 43
and 0, and the third field is read at cursor 8. -/
theorem Unpack_reads_at_width_sums_witness :
    Unpack [0b11011010, 0b10101100] (.structPtr MultipleBytes)
        = ⟨[⟨"Field1", true, some "4", .Uint8, 13⟩, ⟨"Field2", true, some "4", .Uint8, 10⟩,
            ⟨"Field3", true, some "6", .Uint8, 43⟩, ⟨"Field4", true, some "2", .Uint8, 0⟩],
           [0, 4, 8, 14], 16, .returned none⟩
      ∧ (Unpack [0b11011010, 0b10101100] (.structPtr MultipleBytes)).fields.map
            StructField.value = [13, 10, 43, 0]
      ∧ ((Unpack [0b11011010, 0b10101100] (.structPtr MultipleBytes)).cursors[2]?
            = some (totalWidth (MultipleBytes.take 2))
          ∧ ((field "Field3" .Uint8 "6").described = true → ∃ raw v,
                readBits [0b11011010, 0b10101100] (totalWidth (MultipleBytes.take 2))
                    (field "Field3" .Uint8 "6").bitWidth = .ret raw none
                  ∧ setFieldValue (field "Field3" .Uint8 "6").kind raw = some v
                  ∧ (Unpack [0b11011010, 0b10101100] (.structPtr MultipleBytes)).fields[2]?
                      = some ⟨"Field3", true, some "6", .Uint8, v⟩)
          ∧ ((field "Field3" .Uint8 "6").described = false →
              (Unpack [0b11011010, 0b10101100] (.structPtr MultipleBytes)).fields[2]?
                = some (field "Field3" .Uint8 "6"))) :=
  ⟨by decide, by decide,
   Unpack_reads_at_width_sums [0b11011010, 0b10101100] MultipleBytes (by decide) 2
     (field "Field3" .Uint8 "6") (by decide)⟩

/-- C3: when every described field has a width in 1..64 and a supported integer
kind, Unpack returns an error if and only if the sum of the widths exceeds
8*len(data); otherwise it returns nil (a longer buffer is accepted), and the error is
the one of the check made before the reader is called. -/
theorem Unpack_error_iff_too_short (data : List Byte) (fields : List StructField)
    (hwf : ∀ f ∈ fields, f.described = true → f.wellFormed = true) :
    ((∃ e, (Unpack data (.structPtr fields)).exit = .returned (some e))
        ↔ 8 * (data.length : Int) < totalWidth fields)
      ∧ (totalWidth fields ≤ 8 * (data.length : Int)
          → (Unpack data (.structPtr fields)).exit = .returned none)
      ∧ (∀ e, (Unpack data (.structPtr fields)).exit = .returned (some e)
          → ∃ name needed available, e = .notEnoughBits name needed available
              ∧ available < needed) := by
  have hU : Unpack data (.structPtr fields) = unpackFields data fields 0 := rfl
  rw [hU]
  rcases Int.lt_or_le (8 * (data.length : Int)) (totalWidth fields) with hshort | hfit
  · obtain ⟨i, f, hi, hover, hmin, hexit, _⟩ :=
      unpackFields_short data fields 0 (le_refl _) (by omega) hwf (by omega)
    have hsplit : totalWidth (fields.take (i + 1)) = totalWidth (fields.take i) + f.bitWidth := by
      rw [List.take_succ, totalWidth_append, hi]
      simp [totalWidth]
    refine ⟨⟨fun _ => hshort, fun _ => ⟨_, hexit⟩⟩, fun h => by omega, ?_⟩
    intro e he
    rw [hexit] at he
    injection he with he
    injection he with he
    exact ⟨_, _, _, he.symm, by omega⟩
  · have hok := unpackFields_fits data fields 0 (le_refl _) hwf (by omega)
    refine ⟨⟨?_, fun h => by omega⟩, fun _ => hok, ?_⟩
    · rintro ⟨e, he⟩
      rw [hok] at he
      cases he
    · intro e he
      rw [hok] at he
      cases he

/-- C3 on the test "not enough data": 16 bits of fields against one byte. -/
theorem Unpack_error_iff_too_short_witness :
    (Unpack [0b11011010] (.structPtr MultipleBytes)).exit
        = .returned (some (.notEnoughBits "Field3" 6 0))
      ∧ (((∃ e, (Unpack [0b11011010] (.structPtr MultipleBytes)).exit = .returned (some e))
          ↔ 8 * (([0b11011010] : List Byte).length : Int) < totalWidth MultipleBytes)
        ∧ (totalWidth MultipleBytes ≤ 8 * (([0b11011010] : List Byte).length : Int)
            → (Unpack [0b11011010] (.structPtr MultipleBytes)).exit = .returned none)
        ∧ (∀ e, (Unpack [0b11011010] (.structPtr MultipleBytes)).exit = .returned (some e)
            → ∃ name needed available, e = .notEnoughBits name needed available
                ∧ available < needed)) :=
  ⟨by decide, Unpack_error_iff_too_short [0b11011010] MultipleBytes (by decide)⟩

/-- C7: when every described field has a width in 1..64 and a supported kind and the
total width exceeds 8*len(data), the error names the field of the smallest index i
at which the sum of the widths of fields 0..i exceeds 8*len(data), with
needed = width_i and available = 8*len(data) - (sum of the widths before i). -/
theorem Unpack_insufficient_names_first (data : List Byte) (fields : List StructField)
    (hwf : ∀ f ∈ fields, f.described = true → f.wellFormed = true)
    (htotal : 8 * (data.length : Int) < totalWidth fields) :
    ∃ (i : Nat) (f : StructField), fields[i]? = some f
      ∧ 8 * (data.length : Int) < totalWidth (fields.take (i + 1))
      ∧ (∀ j, j < i → totalWidth (fields.take (j + 1)) ≤ 8 * (data.length : Int))
      ∧ (Unpack data (.structPtr fields)).exit
          = .returned (some (.notEnoughBits f.name f.bitWidth
              (8 * (data.length : Int) - totalWidth (fields.take i)))) := by
  obtain ⟨i, f, hi, hover, hmin, hexit, _⟩ :=
    unpackFields_short data fields 0 (le_refl _) (by omega) hwf (by omega)
  refine ⟨i, f, hi, by omega, ?_, ?_⟩
  · intro j hj
    have := hmin j hj
    omega
  · have hU : Unpack data (.structPtr fields) = unpackFields data fields 0 := rfl
    rw [hU, hexit]
    congr 3
    omega

/-- C7 on the test "not enough data": the third field, needed 6, available 0. -/
theorem Unpack_insufficient_names_first_witness :
    (Unpack [0b11011010] (.structPtr MultipleBytes)).exit
        = .returned (some (.notEnoughBits "Field3" 6 0))
      ∧ ∃ (i : Nat) (f : StructField), MultipleBytes[i]? = some f
          ∧ 8 * (([0b11011010] : List Byte).length : Int) < totalWidth (MultipleBytes.take (i + 1))
          ∧ (∀ j, j < i →
              totalWidth (MultipleBytes.take (j + 1)) ≤ 8 * (([0b11011010] : List Byte).length : Int))
          ∧ (Unpack [0b11011010] (.structPtr MultipleBytes)).exit
              = .returned (some (.notEnoughBits f.name f.bitWidth
                  (8 * (([0b11011010] : List Byte).length : Int) - totalWidth (MultipleBytes.take i)))) :=
  ⟨by decide, Unpack_insufficient_names_first [0b11011010] MultipleBytes (by decide) (by decide)⟩

/-- A field with a parsed width in 1..64 and a supported kind is a well-formed
descriptor. -/
theorem wellFormed_of_parts (f : StructField) (t : String) (w : Int) (hexp : f.exported = true)
    (htag : f.bitsTag = some t) (hw : Atoi t = some w) (h1 : 1 ≤ w) (h64 : w ≤ 64)
    (hk : supportedKind f.kind = true) : f.wellFormed = true := by
  have hbw := bitWidth_of_tag f t w hexp htag hw
  simp [StructField.wellFormed, StructField.described, hexp, htag, hbw, h1, h64, hk]

/-- C4: a described field with a signed target of width N and a bit width w < N,
reached without an earlier error and with w bits left in the buffer, is assigned the
unsigned value of the w extracted bits: the value of the field after the call is the
value readBits returns, which lies in [0, 2^w - 1]. -/
theorem Unpack_signed_not_sign_extended (data : List Byte) (pre : List StructField)
    (f : StructField) (post : List StructField) (t : String) (w : Int)
    (hpre : (Unpack data (.structPtr pre)).exit = .returned none)
    (hexp : f.exported = true) (htag : f.bitsTag = some t) (hw : Atoi t = some w)
    (hk : signedKind f.kind = true) (h1 : 1 ≤ w) (hlt : w < (f.kind.bits : Int))
    (hfit : totalWidth pre + w ≤ 8 * (data.length : Int)) :
    ∃ raw : Nat, readBits data (totalWidth pre) w = .ret raw none
      ∧ (Unpack data (.structPtr (pre ++ f :: post))).fields[pre.length]?
          = some ⟨f.name, f.exported, f.bitsTag, f.kind, (raw : Int)⟩
      ∧ (0 : Int) ≤ (raw : Int) ∧ (raw : Int) ≤ 2 ^ w.toNat - 1 := by
  have hpre2 : (unpackFields data pre 0).exit = .returned none := hpre
  have hnn := totalWidth_nonneg_of_ok data pre 0 hpre2
  have hb : f.kind.bits ≤ 64 := by cases f.kind <;> simp [Kind.bits]
  have hsup : supportedKind f.kind = true := by
    cases hkind : f.kind <;> simp [hkind, signedKind] at hk <;> rfl
  have hwf := wellFormed_of_parts f t w hexp htag hw h1 (by omega) hsup
  have hbw := bitWidth_of_tag f t w hexp htag hw
  obtain ⟨v, hv, hstep⟩ := loopBody_wellFormed_fits data (totalWidth pre) f hwf hnn
    (by rw [hbw]; omega)
  rw [hbw] at hv hstep
  have hlt2 := window_lt data (totalWidth pre).toNat w.toNat
  have hv2 := setFieldValue_signed f.kind (window data (totalWidth pre).toNat w.toNat) w.toNat hk
    hlt2 (by omega)
  rw [hv2] at hv
  injection hv with hv
  subst hv
  refine ⟨window data (totalWidth pre).toNat w.toNat, ?_, ?_, by omega, ?_⟩
  · have := readBits_in_bounds data (totalWidth pre).toNat w.toNat (by omega) (by omega)
    rwa [Int.toNat_of_nonneg hnn, Int.toNat_of_nonneg (by omega : (0 : Int) ≤ w)] at this
  · have hstep2 : loopBody data (0 + totalWidth pre) f
        = .assign (window data (totalWidth pre).toNat w.toNat : Nat) w := by
      rw [zero_add]; exact hstep
    exact unpackFields_after_ok_assign data pre f post 0 _ w hpre2 hstep2
  · have : ((window data (totalWidth pre).toNat w.toNat : Nat) : Int) < 2 ^ w.toNat := by
      exact_mod_cast hlt2
    omega

/-- C4 on the 4-bit field 0b1111 stored into a signed 16-bit field: it holds 15. -/
theorem Unpack_signed_not_sign_extended_witness :
    (Unpack [0b11110000] (.structPtr [field "F" .Int16 "4"])).fields
        = [⟨"F", true, some "4", .Int16, 15⟩]
      ∧ (Unpack [0b11110000] (.structPtr [field "F" .Int16 "4"])).fields.map StructField.value
        = [15]
      ∧ ∃ raw : Nat, readBits [0b11110000] (totalWidth []) 4 = .ret raw none
          ∧ (Unpack [0b11110000]
                (.structPtr ([] ++ field "F" .Int16 "4" :: []))).fields[([] : List StructField).length]?
              = some ⟨"F", true, some "4", .Int16, (raw : Int)⟩
          ∧ (0 : Int) ≤ (raw : Int) ∧ (raw : Int) ≤ 2 ^ (4 : Int).toNat - 1 :=
  ⟨by decide, by decide,
   Unpack_signed_not_sign_extended [0b11110000] [] (field "F" .Int16 "4") [] "4" 4
     (by decide) (by decide) (by decide) (by decide) (by decide) (by decide) (by decide)
     (by decide)⟩

/-- C5 fails as stated: a 16-bit field read into a uint8 target.  readBits returns
511, the field holds 255. -/
theorem Unpack_unsigned_loses_bits :
    readBits [1, 255] 0 16 = .ret 511 none
      ∧ (Unpack [1, 255] (.structPtr [field "F" .Uint8 "16"])).exit = .returned none
      ∧ (Unpack [1, 255] (.structPtr [field "F" .Uint8 "16"])).fields
          = [⟨"F", true, some "16", .Uint8, 255⟩]
      ∧ (Unpack [1, 255] (.structPtr [field "F" .Uint8 "16"])).fields.map StructField.value
          = [255]
      ∧ (Unpack [1, 255] (.structPtr [field "F" .Uint8 "16"])).fields.map StructField.value
          ≠ [511] := by
  decide

/-- C5, amended: a described field with an unsigned target of width N and a bit
width in 1..64, reached without an earlier error and with enough bits left, is
assigned the low N bits of the value readBits returns (the value of the field after
the call is that value mod 2^N); that is the whole value when the bit width is at
most N. -/
theorem Unpack_unsigned_keeps_low_bits (data : List Byte) (pre : List StructField)
    (f : StructField) (post : List StructField) (t : String) (w : Int)
    (hpre : (Unpack data (.structPtr pre)).exit = .returned none)
    (hexp : f.exported = true) (htag : f.bitsTag = some t) (hw : Atoi t = some w)
    (hk : unsignedKind f.kind = true) (h1 : 1 ≤ w) (h64 : w ≤ 64)
    (hfit : totalWidth pre + w ≤ 8 * (data.length : Int)) :
    ∃ raw : Nat, readBits data (totalWidth pre) w = .ret raw none
      ∧ (Unpack data (.structPtr (pre ++ f :: post))).fields[pre.length]?
          = some ⟨f.name, f.exported, f.bitsTag, f.kind, ((raw % 2 ^ f.kind.bits : Nat) : Int)⟩
      ∧ (w ≤ (f.kind.bits : Int) → raw % 2 ^ f.kind.bits = raw) := by
  have hpre2 : (unpackFields data pre 0).exit = .returned none := hpre
  have hnn := totalWidth_nonneg_of_ok data pre 0 hpre2
  have hsup : supportedKind f.kind = true := by
    cases hkind : f.kind <;> simp [hkind, unsignedKind] at hk <;> rfl
  have hwf := wellFormed_of_parts f t w hexp htag hw h1 h64 hsup
  have hbw := bitWidth_of_tag f t w hexp htag hw
  obtain ⟨v, hv, hstep⟩ := loopBody_wellFormed_fits data (totalWidth pre) f hwf hnn
    (by rw [hbw]; omega)
  rw [hbw] at hv hstep
  have hlt := window_lt data (totalWidth pre).toNat w.toNat
  have hlt64 : window data (totalWidth pre).toNat w.toNat < 2 ^ 64 :=
    Nat.lt_of_lt_of_le hlt (Nat.pow_le_pow_right (by decide) (by omega))
  rw [setFieldValue_unsigned f.kind _ hk hlt64] at hv
  injection hv with hv
  subst hv
  refine ⟨window data (totalWidth pre).toNat w.toNat, ?_, ?_, ?_⟩
  · have := readBits_in_bounds data (totalWidth pre).toNat w.toNat (by omega) (by omega)
    rwa [Int.toNat_of_nonneg hnn, Int.toNat_of_nonneg (by omega : (0 : Int) ≤ w)] at this
  · have hstep2 : loopBody data (0 + totalWidth pre) f
        = .assign ((window data (totalWidth pre).toNat w.toNat % 2 ^ f.kind.bits : Nat) : Int) w := by
      rw [zero_add]; exact hstep
    exact unpackFields_after_ok_assign data pre f post 0 _ w hpre2 hstep2
  · intro hle
    exact Nat.mod_eq_of_lt
      (Nat.lt_of_lt_of_le hlt (Nat.pow_le_pow_right (by decide) (by omega)))

/-- C5 amended, on the 16-bit field read into a uint8 target. -/
theorem Unpack_unsigned_keeps_low_bits_witness :
    (Unpack [1, 255] (.structPtr [field "F" .Uint8 "16"])).fields.map StructField.value
        = [511 % 2 ^ 8]
      ∧ ∃ raw : Nat, readBits [1, 255] (totalWidth []) 16 = .ret raw none
          ∧ (Unpack [1, 255]
                (.structPtr ([] ++ field "F" .Uint8 "16" :: []))).fields[([] : List StructField).length]?
              = some ⟨"F", true, some "16", .Uint8,
                  ((raw % 2 ^ (field "F" .Uint8 "16").kind.bits : Nat) : Int)⟩
          ∧ ((16 : Int) ≤ ((field "F" .Uint8 "16").kind.bits : Int)
              → raw % 2 ^ (field "F" .Uint8 "16").kind.bits = raw) :=
  ⟨by decide,
   Unpack_unsigned_keeps_low_bits [1, 255] [] (field "F" .Uint8 "16") [] "16" 16
     (by decide) (by decide) (by decide) (by decide) (by decide) (by decide) (by decide)
     (by decide)⟩

/-- A byte is stored unchanged in every byte target. -/
theorem setFieldValue_byte (k : Kind) (b : Byte) (hk : byteTarget k = true) :
    setFieldValue k b.val = some (b.val : Int) := by
  have hb : b.val < 2 ^ 8 := b.isLt
  unfold byteTarget at hk
  cases hu : unsignedKind k with
  | true =>
    have h64 : b.val < 2 ^ 64 := Nat.lt_of_lt_of_le hb (by decide)
    rw [setFieldValue_unsigned k b.val hu h64]
    have h8 : 8 ≤ k.bits := by cases k <;> simp [unsignedKind, Kind.bits] at hu ⊢
    rw [Nat.mod_eq_of_lt (Nat.lt_of_lt_of_le hb (Nat.pow_le_pow_right (by decide) h8))]
  | false =>
    simp only [hu, Bool.false_or, Bool.and_eq_true, decide_eq_true_eq] at hk
    exact setFieldValue_signed k b.val 8 hk.1 hb (by omega)

theorem totalWidth_of_bytes (l : List StructField) (h : ∀ f ∈ l, f.bitWidth = 8) :
    totalWidth l = 8 * (l.length : Int) := by
  induction l with
  | nil => simp [totalWidth_nil]
  | cons a l ih =>
    rw [totalWidth_cons, h a (List.mem_cons_self a l),
      ih (fun f hf => h f (List.mem_cons_of_mem a hf))]
    simp only [List.length_cons]
    push_cast
    ring

/-- The eight bits that start at a byte boundary are the byte. -/
theorem window_byte (data : List Byte) (i : Nat) (b : Byte) (hb : data[i]? = some b) :
    window data (8 * i) 8 = b.val := by
  have h := chunk_eq_window data (8 * i) 8 (by omega)
  have hq : 8 * i / 8 = i := by omega
  have hr : 8 - 8 * i % 8 - 8 = 0 := by omega
  rw [hq, hr] at h
  rw [← h]
  have hget : data.getD i 0 = b := by
    simp [List.getD, hb]
  rw [hget]
  have := b.isLt
  simp only [pow_zero, Nat.div_one]
  omega

/-- C6: for k <= len(data) described fields, all of bit width 8 and each with an
unsigned target or a signed target of at least 16 bits, Unpack succeeds and the
value of field i after the call is the unsigned value of data[i] (name, export mark,
tag and kind as before). -/
theorem Unpack_byte_fields (data : List Byte) (fields : List StructField)
    (hlen : fields.length ≤ data.length)
    (hf : ∀ f ∈ fields, f.exported = true ∧ (∃ t, f.bitsTag = some t ∧ Atoi t = some 8)
            ∧ byteTarget f.kind = true) :
    (Unpack data (.structPtr fields)).exit = .returned none
      ∧ ∀ (i : Nat) (f : StructField) (b : Byte), fields[i]? = some f → data[i]? = some b →
          (Unpack data (.structPtr fields)).fields[i]?
            = some ⟨f.name, f.exported, f.bitsTag, f.kind, (b.val : Int)⟩ := by
  have hU : Unpack data (.structPtr fields) = unpackFields data fields 0 := rfl
  rw [hU]
  have hbw : ∀ f ∈ fields, f.bitWidth = 8 := by
    intro f hfm
    obtain ⟨hexp, ⟨t, htag, hw⟩, _⟩ := hf f hfm
    exact bitWidth_of_tag f t 8 hexp htag hw
  have hwf : ∀ f ∈ fields, f.described = true → f.wellFormed = true := by
    intro f hfm _
    obtain ⟨hexp, ⟨t, htag, hw⟩, hk⟩ := hf f hfm
    have hsup : supportedKind f.kind = true := by
      cases hkind : f.kind <;> simp [hkind, byteTarget, unsignedKind, signedKind] at hk <;> rfl
    exact wellFormed_of_parts f t 8 hexp htag hw (by decide) (by decide) hsup
  have htot := totalWidth_of_bytes fields hbw
  have hok := unpackFields_fits data fields 0 (le_refl _) hwf (by omega)
  refine ⟨hok, ?_⟩
  intro i f b hi hb
  have hfm : f ∈ fields := List.getElem?_mem hi
  obtain ⟨hexp, ⟨t, htag, hw⟩, hk⟩ := hf f hfm
  have hd : f.described = true := by simp [StructField.described, hexp, htag]
  obtain ⟨_, hstored, _⟩ := unpackFields_ok data fields 0 hok i f hi
  obtain ⟨raw, v, hread, hset, hfield⟩ := hstored hd
  have hilt : i < fields.length := by
    rcases Nat.lt_or_ge i fields.length with h | h
    · exact h
    · rw [List.getElem?_eq_none h] at hi
      cases hi
  have htake : totalWidth (fields.take i) = 8 * (i : Int) := by
    rw [totalWidth_of_bytes (fields.take i) (fun g hg => hbw g (List.mem_of_mem_take hg))]
    rw [List.length_take, Nat.min_eq_left (by omega)]
  rw [htake, zero_add, hbw f hfm] at hread
  have hread2 := readBits_in_bounds data (8 * i) 8 (by decide) (by omega)
  have hcast : (((8 * i : Nat)) : Int) = 8 * (i : Int) := by push_cast; ring
  have hcast8 : (((8 : Nat)) : Int) = 8 := rfl
  rw [hcast, hcast8, hread] at hread2
  injection hread2 with hraw _
  rw [window_byte data i b hb] at hraw
  subst hraw
  rw [setFieldValue_byte f.kind b hk] at hset
  injection hset with hset
  rw [hfield, ← hset]
  rfl

/-- C6 on the test "mixed integer types": uint8, int16 and uint32 fields hold 218,
172 and 255. -/
theorem Unpack_byte_fields_witness :
    (Unpack [0b11011010, 0b10101100, 0b11111111] (.structPtr MixedInts)).fields
        = [⟨"U8", true, some "8", .Uint8, 218⟩, ⟨"I16", true, some "8", .Int16, 172⟩,
           ⟨"U32", true, some "8", .Uint32, 255⟩]
      ∧ (Unpack [0b11011010, 0b10101100, 0b11111111] (.structPtr MixedInts)).fields.map
            StructField.value = [218, 172, 255]
      ∧ ((Unpack [0b11011010, 0b10101100, 0b11111111] (.structPtr MixedInts)).exit
            = .returned none
          ∧ ∀ (i : Nat) (f : StructField) (b : Byte), MixedInts[i]? = some f →
              ([0b11011010, 0b10101100, 0b11111111] : List Byte)[i]? = some b →
              (Unpack [0b11011010, 0b10101100, 0b11111111] (.structPtr MixedInts)).fields[i]?
                = some ⟨f.name, f.exported, f.bitsTag, f.kind, (b.val : Int)⟩) :=
  ⟨by decide, by decide,
   Unpack_byte_fields [0b11011010, 0b10101100, 0b11111111] MixedInts (by decide)
     (by
        intro f hfm
        simp only [MixedInts, List.mem_cons, List.mem_singleton, List.not_mem_nil, or_false] at hfm
        rcases hfm with rfl | rfl | rfl
        · exact ⟨rfl, ⟨"8", rfl, by decide⟩, by decide⟩
        · exact ⟨rfl, ⟨"8", rfl, by decide⟩, by decide⟩
        · exact ⟨rfl, ⟨"8", rfl, by decide⟩, by decide⟩)⟩

/-- A walk over fields that are all skipped changes nothing. -/
theorem unpackFields_all_skipped (data : List Byte) :
    ∀ (pre : List StructField) (off : Int), (∀ g ∈ pre, g.described = false) →
      (unpackFields data pre off).exit = .returned none
        ∧ (unpackFields data pre off).fields = pre ∧ totalWidth pre = 0 := by
  intro pre
  induction pre with
  | nil => intro off _; simp [unpackFields, totalWidth_nil]
  | cons g rest ih =>
    intro off hskip
    have hg := hskip g (List.mem_cons_self g rest)
    obtain ⟨h1, h2, h3⟩ := ih off (fun a ha => hskip a (List.mem_cons_of_mem g ha))
    rw [unpackFields_cons_skip data g rest off (loopBody_skip data off g hg), totalWidth_cons,
      bitWidth_of_not_described g hg]
    exact ⟨h1, by simp [h2], by omega⟩

/-- C9: when the first described field has a declared bit width of 65 or more,
Unpack returns an error, whatever the length of the buffer, and no field is
changed (the error is the invalid-width error when the width does not fit an int,
else the insufficient-data error when the buffer has fewer bits, else the reader's
error); and readBits returns its error for every count > 64, whatever the buffer
and the offset. -/
theorem Unpack_width_over_64 (data : List Byte) (pre : List StructField) (f : StructField)
    (post : List StructField) (t : String) (w : Int)
    (hskip : ∀ g ∈ pre, g.described = false)
    (hexp : f.exported = true) (htag : f.bitsTag = some t) (hw : parseDecimal t = some w)
    (h65 : 65 ≤ w) :
    (Unpack data (.structPtr (pre ++ f :: post))).exit
        = .returned (some
            (if 2 ^ 63 ≤ w then .invalidBits t f.name
             else if 8 * (data.length : Int) < w then
               .notEnoughBits f.name w (8 * (data.length : Int))
             else .readFailed f.name .tooManyBits))
      ∧ (Unpack data (.structPtr (pre ++ f :: post))).fields = pre ++ f :: post
      ∧ ∀ (d : List Byte) (offset count : Int), 64 < count →
          readBits d offset count = .ret 0 (some .tooManyBits) := by
  have hU : Unpack data (.structPtr (pre ++ f :: post)) = unpackFields data (pre ++ f :: post) 0 :=
    rfl
  obtain ⟨hpre, hfields, hzero⟩ := unpackFields_all_skipped data pre 0 hskip
  have hstep : loopBody data (0 + totalWidth pre) f
      = .fail (if 2 ^ 63 ≤ w then .invalidBits t f.name
               else if 8 * (data.length : Int) < w then
                 .notEnoughBits f.name w (8 * (data.length : Int))
               else .readFailed f.name .tooManyBits) := by
    rw [hzero]
    by_cases hbig : 2 ^ 63 ≤ w
    · have ha : Atoi t = none := by
        have hn : ¬ (w < 9223372036854775808) := by omega
        simp [Atoi, hw, hn]
      rw [if_pos hbig]
      simp [loopBody, hexp, htag, ha]
    · have ha : Atoi t = some w := by
        have h1 : w < 9223372036854775808 := by omega
        have h2 : -9223372036854775808 ≤ w := by omega
        simp [Atoi, hw, h1, h2]
      have hpos : ¬ (w ≤ 0) := by omega
      rw [if_neg hbig]
      by_cases hshort : 8 * (data.length : Int) < w
      · have hs2 : (data.length : Int) * 8 - (0 + 0) < w := by omega
        have hav : (data.length : Int) * 8 - (0 + 0) = 8 * (data.length : Int) := by omega
        rw [if_pos hshort]
        simp only [loopBody, hexp, htag, ha, hpos, hs2, hav, hshort, Bool.not_true,
          Bool.false_eq_true, if_false, if_true]
      · have hs2 : ¬ ((data.length : Int) * 8 - (0 + 0) < w) := by omega
        have hr := readBits_too_many data (0 + 0) w (by omega)
        rw [if_neg hshort]
        simp only [loopBody, hexp, htag, ha, hpos, hs2, hr, Bool.not_true,
          Bool.false_eq_true, if_false]
  obtain ⟨hexit, hfs⟩ := unpackFields_after_ok_fail data pre f post 0 _ hpre hstep
  rw [hU]
  refine ⟨hexit, ?_, fun d offset count hc => readBits_too_many d offset count hc⟩
  rw [hfs, hfields]

/-- C9 on a 65-bit field against a buffer of nine bytes: the reader's error. -/
theorem Unpack_width_over_64_witness :
    (Unpack [1, 2, 3, 4, 5, 6, 7, 8, 9] (.structPtr [field "Wide" .Uint64 "65"])).exit
        = .returned (some (.readFailed "Wide" .tooManyBits))
      ∧ ((Unpack [1, 2, 3, 4, 5, 6, 7, 8, 9]
            (.structPtr ([] ++ field "Wide" .Uint64 "65" :: []))).exit
          = .returned (some
              (if 2 ^ 63 ≤ (65 : Int) then .invalidBits "65" (field "Wide" .Uint64 "65").name
               else if 8 * (([1, 2, 3, 4, 5, 6, 7, 8, 9] : List Byte).length : Int) < 65 then
                 .notEnoughBits (field "Wide" .Uint64 "65").name 65
                   (8 * (([1, 2, 3, 4, 5, 6, 7, 8, 9] : List Byte).length : Int))
               else .readFailed (field "Wide" .Uint64 "65").name .tooManyBits))
        ∧ (Unpack [1, 2, 3, 4, 5, 6, 7, 8, 9]
              (.structPtr ([] ++ field "Wide" .Uint64 "65" :: []))).fields
            = [] ++ field "Wide" .Uint64 "65" :: []
        ∧ ∀ (d : List Byte) (offset count : Int), 64 < count →
            readBits d offset count = .ret 0 (some .tooManyBits)) :=
  ⟨by decide,
   Unpack_width_over_64 [1, 2, 3, 4, 5, 6, 7, 8, 9] [] (field "Wide" .Uint64 "65") [] "65" 65
     (by decide) (by decide) (by decide) (by decide) (by decide)⟩

/-- C10: when the first field reached without an earlier error is described and its
declared width does not parse as an int or is <= 0, Unpack returns the invalid-width
error with the annotation and the name of that field, whatever the buffer, and that
field and all later fields are unchanged. -/
theorem Unpack_invalid_width (data : List Byte) (pre : List StructField) (f : StructField)
    (post : List StructField) (t : String)
    (hpre : (Unpack data (.structPtr pre)).exit = .returned none)
    (hexp : f.exported = true) (htag : f.bitsTag = some t)
    (hbad : Atoi t = none ∨ ∃ w, Atoi t = some w ∧ w ≤ 0) :
    (Unpack data (.structPtr (pre ++ f :: post))).exit
        = .returned (some (.invalidBits t f.name))
      ∧ (Unpack data (.structPtr (pre ++ f :: post))).fields.drop pre.length = f :: post := by
  have hU : Unpack data (.structPtr (pre ++ f :: post)) = unpackFields data (pre ++ f :: post) 0 :=
    rfl
  have hpre2 : (unpackFields data pre 0).exit = .returned none := hpre
  have hstep : loopBody data (0 + totalWidth pre) f = .fail (.invalidBits t f.name) := by
    rcases hbad with ha | ⟨w, ha, hle⟩
    · simp [loopBody, hexp, htag, ha]
    · simp [loopBody, hexp, htag, ha, hle]
  obtain ⟨hexit, hfs⟩ := unpackFields_after_ok_fail data pre f post 0 _ hpre2 hstep
  rw [hU]
  refine ⟨hexit, ?_⟩
  rw [hfs]
  have hlen := unpackFields_length data pre 0
  rw [← hlen, List.drop_left]

/-- C10 on the test "invalid bits tag": a uint8 field tagged bits:"invalid" against
data [0]. -/
theorem Unpack_invalid_width_witness :
    (Unpack [0] (.structPtr ([] ++ field "Field" .Uint8 "invalid" :: []))).exit
        = .returned (some (.invalidBits "invalid" (field "Field" .Uint8 "invalid").name))
      ∧ (Unpack [0] (.structPtr ([] ++ field "Field" .Uint8 "invalid" :: []))).fields.drop
            ([] : List StructField).length
          = field "Field" .Uint8 "invalid" :: [] :=
  Unpack_invalid_width [0] [] (field "Field" .Uint8 "invalid") [] "invalid"
    (by decide) (by decide) (by decide) (Or.inl (by decide))

/-! ## The accumulator of the reader -/

theorem readBitsLoopTraced_outcome (data : List Byte) :
    ∀ (fuel result : Nat) (offset rem : Int),
      (readBitsLoopTraced data fuel result offset rem).1 = readBitsLoop data fuel result offset rem := by
  intro fuel
  induction fuel with
  | zero =>
    intro result offset rem
    by_cases h : rem > 0 <;> simp [readBitsLoopTraced, readBitsLoop, h]
  | succ fuel ih =>
    intro result offset rem
    rw [readBitsLoopTraced, readBitsLoop]
    by_cases h : rem > 0
    · by_cases h1 : offset.tdiv 8 ≥ (data.length : Int)
      · simp only [h, h1, if_true]
      · by_cases h2 : offset.tdiv 8 < 0
        · simp only [h, h1, h2, if_true, if_false]
        · simp only [h, h1, h2, if_true, if_false]
          exact ih _ _ _
    · simp only [h, if_false]

/-- One iteration of the traced loop at a non-negative offset inside the buffer. -/
theorem readBitsLoopTraced_step (data : List Byte) (fuel result off rem : Nat)
    (hrem : 0 < rem) (hin : off / 8 < data.length) :
    (readBitsLoopTraced data (fuel + 1) result (off : Int) (rem : Int)).2
      = (result, min (8 - off % 8) rem) ::
        (readBitsLoopTraced data fuel
          (((result <<< min (8 - off % 8) rem) % 2 ^ 64) ||| window data off (min (8 - off % 8) rem))
          ((off + min (8 - off % 8) rem : Nat) : Int)
          ((rem - min (8 - off % 8) rem : Nat) : Int)).2 := by
  rw [readBitsLoopTraced]
  have hpos : ((rem : Int) > 0) := by omega
  have hdiv : (off : Int).tdiv 8 = ((off / 8 : Nat) : Int) := by
    rw [Int.ofNat_tdiv]; rfl
  have hmod : (off : Int).tmod 8 = ((off % 8 : Nat) : Int) := by
    rw [Int.ofNat_tmod]; rfl
  simp only [hpos, if_true, hdiv, hmod]
  have hk : (if 8 - ((off % 8 : Nat) : Int) > (rem : Int) then (rem : Int) else 8 - ((off % 8 : Nat) : Int))
      = ((min (8 - off % 8) rem : Nat) : Int) := by
    split <;> omega
  have hge : ¬ (((off / 8 : Nat) : Int) ≥ (data.length : Int)) := by omega
  have hneg : ¬ (((off / 8 : Nat) : Int) < 0) := by omega
  have hsh : (8 - ((off % 8 : Nat) : Int) - ((min (8 - off % 8) rem : Nat) : Int)).toNat
      = 8 - off % 8 - min (8 - off % 8) rem := by omega
  have hk1 : 1 ≤ min (8 - off % 8) rem := by omega
  have hk8 : min (8 - off % 8) rem ≤ 8 := by omega
  have hsub : (rem : Int) - ((min (8 - off % 8) rem : Nat) : Int)
      = ((rem - min (8 - off % 8) rem : Nat) : Int) := by omega
  have hadd : (off : Int) + ((min (8 - off % 8) rem : Nat) : Int)
      = ((off + min (8 - off % 8) rem : Nat) : Int) := by omega
  simp only [hk, hge, hneg, if_false, Int.toNat_ofNat, hsh, byte_mask_eq _ hk1 hk8,
    Nat.and_pow_two_sub_one_eq_mod, Nat.shiftRight_eq_div_pow, hsub, hadd]
  rw [chunk_eq_window data off _ (Nat.min_le_left _ _)]

/-- Invariant of the traced loop inside the buffer: no shift moves a set bit out of
the 64 bits of the accumulator, and the shift distances add up to the bits that
remained. -/
theorem readBitsLoopTraced_shifts (data : List Byte) :
    ∀ (fuel result off rem c : Nat), rem ≤ fuel → result < 2 ^ c → c + rem ≤ 64 →
      off + rem ≤ 8 * data.length →
      (∀ p ∈ (readBitsLoopTraced data fuel result (off : Int) (rem : Int)).2,
          p.1 * 2 ^ p.2 < 2 ^ 64)
        ∧ ((readBitsLoopTraced data fuel result (off : Int) (rem : Int)).2.map Prod.snd).sum = rem := by
  intro fuel
  induction fuel with
  | zero =>
    intro result off rem c hf _ _ _
    have h0 : rem = 0 := by omega
    subst h0
    simp [readBitsLoopTraced]
  | succ fuel ih =>
    intro result off rem c hf hres hc hb
    rcases Nat.eq_zero_or_pos rem with h0 | hpos
    · subst h0
      simp [readBitsLoopTraced]
    · have hin : off / 8 < data.length := by omega
      rw [readBitsLoopTraced_step data fuel result off rem hpos hin]
      have hkle : min (8 - off % 8) rem ≤ rem := Nat.min_le_right _ _
      have hk1 : 1 ≤ min (8 - off % 8) rem := by omega
      have hchunk := window_lt data off (min (8 - off % 8) rem)
      have hshift : result * 2 ^ min (8 - off % 8) rem < 2 ^ 64 := by
        calc result * 2 ^ min (8 - off % 8) rem
            < 2 ^ c * 2 ^ min (8 - off % 8) rem :=
              Nat.mul_lt_mul_of_pos_right hres (Nat.two_pow_pos _)
          _ = 2 ^ (c + min (8 - off % 8) rem) := (pow_add 2 c _).symm
          _ ≤ 2 ^ 64 := Nat.pow_le_pow_right (by decide) (by omega)
      rw [shift_or_eq_add result c _ _ hres (by omega) hchunk]
      have hres2 : result * 2 ^ min (8 - off % 8) rem + window data off (min (8 - off % 8) rem)
          < 2 ^ (c + min (8 - off % 8) rem) := by
        rw [pow_add]
        have h1 : (result + 1) * 2 ^ min (8 - off % 8) rem ≤ 2 ^ c * 2 ^ min (8 - off % 8) rem :=
          Nat.mul_le_mul_right _ hres
        rw [Nat.add_mul, Nat.one_mul] at h1
        omega
      obtain ⟨ih1, ih2⟩ := ih _ (off + min (8 - off % 8) rem) (rem - min (8 - off % 8) rem)
        (c + min (8 - off % 8) rem) (by omega) hres2 (by omega) (by omega)
      refine ⟨?_, ?_⟩
      · intro p hp
        rcases List.mem_cons.mp hp with rfl | hp
        · exact hshift
        · exact ih1 p hp
      · simp only [List.map_cons, List.sum_cons, ih2]
        omega

/-- C18: when readBits succeeds for an offset >= 0 and a count in 1..64, the value
it returns is below 2^count; every left shift of the 64-bit accumulator that the
call executes keeps all set bits (the shifted value is below 2^64, so the reduction
modulo 2^64 changes nothing), and the shift distances add up to count. -/
theorem readBits_value_has_count_bits (data : List Byte) (offset count : Int) (v : Nat)
    (h0 : 0 ≤ offset) (h1 : 1 ≤ count) (h64 : count ≤ 64)
    (hok : readBits data offset count = .ret v none) :
    v < 2 ^ count.toNat
      ∧ (∀ p ∈ readBitsShifts data offset count,
            p.1 * 2 ^ p.2 < 2 ^ 64 ∧ (p.1 <<< p.2) % 2 ^ 64 = p.1 <<< p.2)
      ∧ ((readBitsShifts data offset count).map Prod.snd).sum = count.toNat := by
  obtain ⟨off, rfl⟩ := Int.eq_ofNat_of_zero_le h0
  obtain ⟨cnt, rfl⟩ := Int.eq_ofNat_of_zero_le (by omega : (0 : Int) ≤ count)
  have hin : off + cnt ≤ 8 * data.length := by
    rcases Nat.lt_or_ge (8 * data.length) (off + cnt) with hout | hin
    · rw [readBits_out_of_bounds data off cnt (by omega) (by omega) hout] at hok
      injection hok with _ he
      cases he
    · exact hin
  rw [readBits_in_bounds data off cnt (by omega) hin] at hok
  injection hok with hv _
  subst hv
  have hn : ¬ ((cnt : Int) > 64) := by omega
  obtain ⟨hs1, hs2⟩ := readBitsLoopTraced_shifts data cnt 0 off cnt 0 (Nat.le_refl _) (by simp)
    (by omega) hin
  simp only [readBitsShifts, hn, if_false, Int.toNat_ofNat]
  refine ⟨window_lt data off cnt, ?_, hs2⟩
  intro p hp
  have hlt := hs1 p hp
  refine ⟨hlt, ?_⟩
  rw [Nat.shiftLeft_eq, Nat.mod_eq_of_lt hlt]

/-- C18 on a window of 64 bits that starts at bit 3 of the first of nine bytes: nine
shifts, the last one of a 61-bit accumulator by 3. -/
theorem readBits_value_has_count_bits_witness :
    (readBitsShifts [255, 255, 255, 255, 255, 255, 255, 255, 255] 3 64).map Prod.snd
        = [5, 8, 8, 8, 8, 8, 8, 8, 3]
      ∧ (2 ^ 64 - 1 < 2 ^ (64 : Int).toNat
          ∧ (∀ p ∈ readBitsShifts [255, 255, 255, 255, 255, 255, 255, 255, 255] 3 64,
                p.1 * 2 ^ p.2 < 2 ^ 64 ∧ (p.1 <<< p.2) % 2 ^ 64 = p.1 <<< p.2)
          ∧ ((readBitsShifts [255, 255, 255, 255, 255, 255, 255, 255, 255] 3 64).map
                Prod.snd).sum = (64 : Int).toNat) :=
  ⟨by decide!,
   readBits_value_has_count_bits [255, 255, 255, 255, 255, 255, 255, 255, 255] 3 64 (2 ^ 64 - 1)
     (by decide) (by decide) (by decide) (by decide!)⟩

/-- C20: for every buffer, offset >= 0 and a, b >= 1 with a + b <= 64 and
offset + a + b <= 8*len(data), the three reads succeed and
readBits(data, offset, a + b) = readBits(data, offset, a) * 2^b
+ readBits(data, offset + a, b). -/
theorem readBits_adjacent_concat (data : List Byte) (offset a b : Int)
    (h0 : 0 ≤ offset) (ha : 1 ≤ a) (hb : 1 ≤ b) (h64 : a + b ≤ 64)
    (hin : offset + a + b ≤ 8 * (data.length : Int)) :
    ∃ x y z : Nat, readBits data offset (a + b) = .ret x none
      ∧ readBits data offset a = .ret y none
      ∧ readBits data (offset + a) b = .ret z none
      ∧ x = y * 2 ^ b.toNat + z := by
  obtain ⟨off, rfl⟩ := Int.eq_ofNat_of_zero_le h0
  obtain ⟨m, rfl⟩ := Int.eq_ofNat_of_zero_le (by omega : (0 : Int) ≤ a)
  obtain ⟨n, rfl⟩ := Int.eq_ofNat_of_zero_le (by omega : (0 : Int) ≤ b)
  refine ⟨window data off (m + n), window data off m, window data (off + m) n, ?_, ?_, ?_, ?_⟩
  · have := readBits_in_bounds data off (m + n) (by omega) (by omega)
    rwa [Nat.cast_add] at this
  · exact readBits_in_bounds data off m (by omega) (by omega)
  · have := readBits_in_bounds data (off + m) n (by omega) (by omega)
    rwa [Nat.cast_add] at this
  · rw [Int.toNat_ofNat]
    exact window_add data off m n

/-- C20 on a 6-bit window split after its first 4 bits, across a byte boundary. -/
theorem readBits_adjacent_concat_witness :
    (readBits [0b11011010, 0b10101100] 4 6 = .ret 42 none
        ∧ readBits [0b11011010, 0b10101100] 4 4 = .ret 10 none
        ∧ readBits [0b11011010, 0b10101100] 8 2 = .ret 2 none)
      ∧ ∃ x y z : Nat, readBits [0b11011010, 0b10101100] 4 (4 + 2) = .ret x none
          ∧ readBits [0b11011010, 0b10101100] 4 4 = .ret y none
          ∧ readBits [0b11011010, 0b10101100] (4 + 4) 2 = .ret z none
          ∧ x = y * 2 ^ (2 : Int).toNat + z :=
  ⟨by decide,
   readBits_adjacent_concat [0b11011010, 0b10101100] 4 4 2 (by decide) (by decide) (by decide)
     (by decide) (by decide)⟩

/-! ## The walker and the errors of the reader -/

/-- The reader after the check of the walker: with `width` bits left at a
non-negative cursor it returns the window, or the error of the 64-bit limit. -/
theorem readBits_after_precheck (data : List Byte) (c width : Int) (h0 : 0 ≤ c)
    (h1 : 1 ≤ width) (hfit : width ≤ (data.length : Int) * 8 - c) :
    (width ≤ 64 ∧ readBits data c width = .ret (window data c.toNat width.toNat) none)
      ∨ (64 < width ∧ readBits data c width = .ret 0 (some .tooManyBits)) := by
  rcases Int.lt_or_le 64 width with hbig | hsmall
  · exact Or.inr ⟨hbig, readBits_too_many data c width hbig⟩
  · refine Or.inl ⟨hsmall, ?_⟩
    have := readBits_in_bounds data c.toNat width.toNat (by omega) (by omega)
    rwa [Int.toNat_of_nonneg h0, Int.toNat_of_nonneg (by omega : (0 : Int) ≤ width)] at this

/-- An iteration at a non-negative cursor does not panic, and the only error of the
reader it can pass on is the error of the 64-bit limit. -/
theorem loopBody_read_inv (data : List Byte) (off : Int) (f : StructField) (h0 : 0 ≤ off) :
    loopBody data off f ≠ .panic
      ∧ ∀ n e, loopBody data off f = .fail (.readFailed n e) →
          e = .tooManyBits ∧ n = f.name ∧ 64 < f.bitWidth := by
  cases hexp : f.exported with
  | false => simp [loopBody, hexp]
  | true =>
    cases htag : f.bitsTag with
    | none => simp [loopBody, hexp, htag]
    | some t =>
      cases ha : Atoi t with
      | none => simp [loopBody, hexp, htag, ha]
      | some w =>
        have hbw := bitWidth_of_tag f t w hexp htag ha
        by_cases hle : w ≤ 0
        · simp [loopBody, hexp, htag, ha, hle]
        · by_cases hshort : (data.length : Int) * 8 - off < w
          · simp [loopBody, hexp, htag, ha, hle, hshort]
          · rcases readBits_after_precheck data off w h0 (by omega) (by omega) with
              ⟨_, hr⟩ | ⟨hbig, hr⟩
            · cases hs : setFieldValue f.kind (window data off.toNat w.toNat) <;>
                simp [loopBody, hexp, htag, ha, hle, hshort, hr, hs]
            · simp only [loopBody, hexp, htag, ha, hle, hshort, hr, Bool.not_true,
                Bool.false_eq_true, if_false, ne_eq, reduceCtorEq, not_false_eq_true, true_and]
              intro n e h
              injection h with h
              injection h with hn he
              exact ⟨he.symm, hn.symm, by omega⟩

/-- A walk that does not end with `nil` has stopped at a field after a part that was
walked without error. -/
theorem unpackFields_stop_split (data : List Byte) :
    ∀ (fields : List StructField) (off : Int),
      (unpackFields data fields off).exit ≠ .returned none →
      ∃ (pre : List StructField) (f : StructField) (post : List StructField),
        fields = pre ++ f :: post
          ∧ (unpackFields data pre off).exit = .returned none
          ∧ ((∃ e, loopBody data (off + totalWidth pre) f = .fail e
                ∧ (unpackFields data fields off).exit = .returned (some e))
              ∨ (loopBody data (off + totalWidth pre) f = .panic
                ∧ (unpackFields data fields off).exit = .panicked)) := by
  intro fields
  induction fields with
  | nil => intro off h; simp [unpackFields] at h
  | cons g rest ih =>
    intro off hstop
    cases hstep : loopBody data off g with
    | skip =>
      rw [unpackFields_cons_skip data g rest off hstep] at hstop ⊢
      have hw := bitWidth_of_not_described g (loopBody_skip_inv data off g hstep)
      obtain ⟨pre, f, post, hsplit, hpre, hcase⟩ := ih off hstop
      refine ⟨g :: pre, f, post, by simp [hsplit], ?_, ?_⟩
      · rw [unpackFields_cons_skip data g pre off hstep]; exact hpre
      · simpa [totalWidth_cons, hw] using hcase
    | assign v w =>
      rw [unpackFields_cons_assign data g rest off v w hstep] at hstop ⊢
      obtain ⟨hexp, ⟨t, htag, hw⟩, _, _, _⟩ := loopBody_assign_inv data off g v w hstep
      have hbw := bitWidth_of_tag g t w hexp htag hw
      obtain ⟨pre, f, post, hsplit, hpre, hcase⟩ := ih (off + w) hstop
      refine ⟨g :: pre, f, post, by simp [hsplit], ?_, ?_⟩
      · rw [unpackFields_cons_assign data g pre off v w hstep]; exact hpre
      · simpa [totalWidth_cons, hbw, add_assoc] using hcase
    | fail e =>
      rw [unpackFields_cons_fail data g rest off e hstep]
      refine ⟨[], g, rest, rfl, by simp [unpackFields], Or.inl ⟨e, ?_, rfl⟩⟩
      simpa [totalWidth_nil] using hstep
    | panic =>
      rw [unpackFields_cons_panic data g rest off hstep]
      refine ⟨[], g, rest, rfl, by simp [unpackFields], Or.inr ⟨?_, rfl⟩⟩
      simpa [totalWidth_nil] using hstep

/-- A walk that starts at a non-negative cursor does not panic. -/
theorem unpackFields_no_panic (data : List Byte) (fields : List StructField) (off : Int)
    (h0 : 0 ≤ off) : (unpackFields data fields off).exit ≠ .panicked := by
  intro hp
  have hstop : (unpackFields data fields off).exit ≠ .returned none := by
    rw [hp]; intro h; cases h
  obtain ⟨pre, f, post, _, hpre, hcase⟩ := unpackFields_stop_split data fields off hstop
  have hnn := totalWidth_nonneg_of_ok data pre off hpre
  rcases hcase with ⟨e, _, hexit⟩ | ⟨hpanic, _⟩
  · rw [hp] at hexit; cases hexit
  · exact (loopBody_read_inv data (off + totalWidth pre) f (by omega)).1 hpanic

/-- Bounds of the cursor: started inside `0 .. 8*len(data)` it stays there and never
goes below its start value. -/
theorem unpackFields_cursor_bounds (data : List Byte) :
    ∀ (fields : List StructField) (off : Int), 0 ≤ off → off ≤ (data.length : Int) * 8 →
      (∀ c ∈ (unpackFields data fields off).cursors, off ≤ c ∧ c ≤ (data.length : Int) * 8)
        ∧ off ≤ (unpackFields data fields off).bitOffset
        ∧ (unpackFields data fields off).bitOffset ≤ (data.length : Int) * 8 := by
  intro fields
  induction fields with
  | nil => intro off h0 hle; simp [unpackFields, hle]
  | cons g rest ih =>
    intro off h0 hle
    cases hstep : loopBody data off g with
    | skip =>
      rw [unpackFields_cons_skip data g rest off hstep]
      obtain ⟨h1, h2, h3⟩ := ih off h0 hle
      refine ⟨?_, h2, h3⟩
      intro c hc
      rcases List.mem_cons.mp hc with rfl | hc
      · exact ⟨le_refl _, hle⟩
      · exact h1 c hc
    | assign v w =>
      rw [unpackFields_cons_assign data g rest off v w hstep]
      obtain ⟨_, _, hpos, hfit, _⟩ := loopBody_assign_inv data off g v w hstep
      obtain ⟨h1, h2, h3⟩ := ih (off + w) (by omega) (by omega)
      refine ⟨?_, by simp only; omega, h3⟩
      intro c hc
      rcases List.mem_cons.mp hc with rfl | hc
      · exact ⟨le_refl _, hle⟩
      · have := h1 c hc
        omega
    | fail e =>
      rw [unpackFields_cons_fail data g rest off e hstep]
      simp [hle]
    | panic =>
      rw [unpackFields_cons_panic data g rest off hstep]
      simp [hle]

/-- The kinds the switch of `Unpack` assigns to are the signed and the unsigned
integer kinds, and no other kind (not `uintptr`, not `bool`, not a float). -/
theorem supportedKind_eq_signed_or_unsigned (k : Kind) :
    supportedKind k = (signedKind k || unsignedKind k) := by
  cases k <;> rfl

/-- The kinds the switch of `Unpack` assigns to, one by one. -/
theorem supportedKind_iff (k : Kind) :
    supportedKind k = true
      ↔ k = .Int ∨ k = .Int8 ∨ k = .Int16 ∨ k = .Int32 ∨ k = .Int64
          ∨ k = .Uint ∨ k = .Uint8 ∨ k = .Uint16 ∨ k = .Uint32 ∨ k = .Uint64 := by
  cases k <;> simp [supportedKind, setFieldValue]

theorem supportedKind_of_setFieldValue (k : Kind) (raw : Nat) (v : Int)
    (h : setFieldValue k raw = some v) : supportedKind k = true := by
  cases k <;> simp [setFieldValue, supportedKind] at h ⊢

theorem setFieldValue_of_not_supported (k : Kind) (raw : Nat) (h : supportedKind k = false) :
    setFieldValue k raw = none := by
  cases k <;> simp [setFieldValue, supportedKind] at h ⊢

/-- The walk over fields that are all skipped: nothing changes and the cursor stays
where it is. -/
theorem unpackFields_all_skipped_cursors (data : List Byte) :
    ∀ (fields : List StructField) (off : Int), (∀ g ∈ fields, g.described = false) →
      (unpackFields data fields off).bitOffset = off
        ∧ ∀ c ∈ (unpackFields data fields off).cursors, c = off := by
  intro fields
  induction fields with
  | nil => intro off _; simp [unpackFields]
  | cons g rest ih =>
    intro off hskip
    have hg := hskip g (List.mem_cons_self g rest)
    obtain ⟨h1, h2⟩ := ih off (fun a ha => hskip a (List.mem_cons_of_mem g ha))
    rw [unpackFields_cons_skip data g rest off (loopBody_skip data off g hg)]
    refine ⟨h1, ?_⟩
    intro c hc
    rcases List.mem_cons.mp hc with rfl | hc
    · rfl
    · exact h2 c hc

/-- C13: for every buffer, the empty one included, and a record with no described
field (in particular the empty field list), Unpack succeeds, the cursor stays 0 and
the record is unchanged. -/
theorem Unpack_zero_fields (data : List Byte) (fields : List StructField)
    (hnone : ∀ g ∈ fields, g.described = false) :
    (Unpack data (.structPtr fields)).exit = .returned none
      ∧ (Unpack data (.structPtr fields)).bitOffset = 0
      ∧ (∀ c ∈ (Unpack data (.structPtr fields)).cursors, c = 0)
      ∧ (Unpack data (.structPtr fields)).fields = fields
      ∧ Unpack data (.structPtr []) = ⟨[], [], 0, .returned none⟩ := by
  obtain ⟨h1, h2, _⟩ := unpackFields_all_skipped data fields 0 hnone
  obtain ⟨h3, h4⟩ := unpackFields_all_skipped_cursors data fields 0 hnone
  exact ⟨h1, h3, h4, h2, rfl⟩

/-- C13 on the empty buffer and the empty field list. -/
theorem Unpack_zero_fields_witness :
    (Unpack [] (.structPtr [])).exit = .returned none
      ∧ (Unpack [] (.structPtr [])).bitOffset = 0
      ∧ (∀ c ∈ (Unpack [] (.structPtr [])).cursors, c = 0)
      ∧ (Unpack [] (.structPtr [])).fields = []
      ∧ Unpack [] (.structPtr []) = ⟨[], [], 0, .returned none⟩ :=
  Unpack_zero_fields [] [] (by decide)

/-- C11: when the field list contains a described field whose kind is neither a
signed integer kind (int, int8, int16, int32, int64) nor an unsigned integer kind
(uint, uint8, uint16, uint32, uint64), Unpack returns an error; and when the fields
before it
decode without error, its width is in 1..64 and that many bits remain, the error is
the unsupported-type error with the kind and the name of that field, and that field
and the later ones are not written. -/
theorem Unpack_unsupported_kind_fails (data : List Byte) (fields : List StructField)
    (g : StructField) (hg : g ∈ fields) (hd : g.described = true)
    (hs : signedKind g.kind = false) (hu : unsignedKind g.kind = false) :
    (∃ e, (Unpack data (.structPtr fields)).exit = .returned (some e))
      ∧ ∀ (pre post : List StructField) (t : String) (w : Int),
          fields = pre ++ g :: post →
          (Unpack data (.structPtr pre)).exit = .returned none →
          g.bitsTag = some t → Atoi t = some w → 1 ≤ w → w ≤ 64 →
          totalWidth pre + w ≤ 8 * (data.length : Int) →
          (Unpack data (.structPtr fields)).exit
              = .returned (some (.unsupportedType g.kind g.name))
            ∧ (Unpack data (.structPtr fields)).fields.drop pre.length = g :: post := by
  have hU : Unpack data (.structPtr fields) = unpackFields data fields 0 := rfl
  rw [hU]
  have hk : supportedKind g.kind = false := by
    rw [supportedKind_eq_signed_or_unsigned, hs, hu]
    rfl
  refine ⟨?_, ?_⟩
  · cases hexit : (unpackFields data fields 0).exit with
    | panicked => exact absurd hexit (unpackFields_no_panic data fields 0 (le_refl _))
    | returned err =>
      cases err with
      | some e => exact ⟨e, rfl⟩
      | none =>
        exfalso
        obtain ⟨k, hk2⟩ := List.mem_iff_getElem?.mp hg
        obtain ⟨_, hstored, _⟩ := unpackFields_ok data fields 0 hexit k g hk2
        obtain ⟨raw, v, _, hset, _⟩ := hstored hd
        rw [supportedKind_of_setFieldValue g.kind raw v hset] at hk
        cases hk
  · intro pre post t w hsplit hpre htag hw h1 h64 hfit
    have hpre2 : (unpackFields data pre 0).exit = .returned none := hpre
    have hnn := totalWidth_nonneg_of_ok data pre 0 hpre2
    have hexp : g.exported = true := by
      simp only [StructField.described, Bool.and_eq_true] at hd
      exact hd.1
    have hle : ¬ (w ≤ 0) := by omega
    have hshort : ¬ ((data.length : Int) * 8 - totalWidth pre < w) := by omega
    have hread : readBits data (totalWidth pre) w
        = .ret (window data (totalWidth pre).toNat w.toNat) none := by
      have := readBits_in_bounds data (totalWidth pre).toNat w.toNat (by omega) (by omega)
      rwa [Int.toNat_of_nonneg hnn, Int.toNat_of_nonneg (by omega : (0 : Int) ≤ w)] at this
    have hstep : loopBody data (0 + totalWidth pre) g
        = .fail (.unsupportedType g.kind g.name) := by
      rw [zero_add]
      simp [loopBody, hexp, htag, hw, hle, hshort, hread,
        setFieldValue_of_not_supported g.kind _ hk]
    obtain ⟨hexit, hfs⟩ := unpackFields_after_ok_fail data pre g post 0 _ hpre2 hstep
    rw [hsplit]
    refine ⟨hexit, ?_⟩
    rw [hfs, ← unpackFields_length data pre 0, List.drop_left]

/-- C11 on a record with a string field of 8 bits between two byte fields. -/
theorem Unpack_unsupported_kind_fails_witness :
    Unpack [1, 2, 3] (.structPtr [field "A" .Uint8 "8", field "S" .String "8",
          field "B" .Uint8 "8"])
        = ⟨[⟨"A", true, some "8", .Uint8, 1⟩, field "S" .String "8", field "B" .Uint8 "8"],
           [0, 8], 8, .returned (some (.unsupportedType .String "S"))⟩
      ∧ ((∃ e, (Unpack [1, 2, 3] (.structPtr [field "A" .Uint8 "8", field "S" .String "8",
              field "B" .Uint8 "8"])).exit = .returned (some e))
        ∧ ∀ (pre post : List StructField) (t : String) (w : Int),
            [field "A" .Uint8 "8", field "S" .String "8", field "B" .Uint8 "8"]
                = pre ++ field "S" .String "8" :: post →
            (Unpack [1, 2, 3] (.structPtr pre)).exit = .returned none →
            (field "S" .String "8").bitsTag = some t → Atoi t = some w → 1 ≤ w → w ≤ 64 →
            totalWidth pre + w ≤ 8 * (([1, 2, 3] : List Byte).length : Int) →
            (Unpack [1, 2, 3] (.structPtr [field "A" .Uint8 "8", field "S" .String "8",
                  field "B" .Uint8 "8"])).exit
                = .returned (some (.unsupportedType (field "S" .String "8").kind
                    (field "S" .String "8").name))
              ∧ (Unpack [1, 2, 3] (.structPtr [field "A" .Uint8 "8", field "S" .String "8",
                    field "B" .Uint8 "8"])).fields.drop pre.length
                  = field "S" .String "8" :: post) :=
  ⟨by decide,
   Unpack_unsupported_kind_fails [1, 2, 3]
     [field "A" .Uint8 "8", field "S" .String "8", field "B" .Uint8 "8"]
     (field "S" .String "8") (by decide) (by decide) (by decide) (by decide)⟩

/-- C12: when Unpack returns an error there is an index i at which the walk stopped:
the fields before i decode without error and the iteration of field i fails with
that error; every field of index < i holds what the decode of those fields gives it
(a described field the coercion of the readBits result at the sum of the widths
before it, a skipped field its old value), and every field of index >= i is
unchanged. -/
theorem Unpack_stops_without_rollback (data : List Byte) (fields : List StructField)
    (e : UnpackError) (hfail : (Unpack data (.structPtr fields)).exit = .returned (some e)) :
    ∃ (i : Nat) (f : StructField), fields[i]? = some f
      ∧ (Unpack data (.structPtr (fields.take i))).exit = .returned none
      ∧ loopBody data (totalWidth (fields.take i)) f = .fail e
      ∧ (∀ (k : Nat) (g : StructField), k < i → fields[k]? = some g →
            (g.described = true → ∃ raw v,
                readBits data (totalWidth (fields.take k)) g.bitWidth = .ret raw none
                  ∧ setFieldValue g.kind raw = some v
                  ∧ (Unpack data (.structPtr fields)).fields[k]? = some (g.set v))
              ∧ (g.described = false →
                  (Unpack data (.structPtr fields)).fields[k]? = some g))
      ∧ (Unpack data (.structPtr fields)).fields.take i
          = (Unpack data (.structPtr (fields.take i))).fields
      ∧ (Unpack data (.structPtr fields)).fields.drop i = fields.drop i := by
  have hU : ∀ l, Unpack data (.structPtr l) = unpackFields data l 0 := fun _ => rfl
  simp only [hU] at hfail ⊢
  have hstop : (unpackFields data fields 0).exit ≠ .returned none := by
    rw [hfail]; intro h; cases h
  obtain ⟨pre, f, post, hsplit, hpre, hcase⟩ := unpackFields_stop_split data fields 0 hstop
  have hstep : loopBody data (0 + totalWidth pre) f = .fail e := by
    rcases hcase with ⟨e2, hs, hexit⟩ | ⟨_, hexit⟩
    · rw [hfail] at hexit
      injection hexit with hexit
      injection hexit with hexit
      rw [hexit]; exact hs
    · rw [hfail] at hexit; cases hexit
  obtain ⟨_, hfs⟩ := unpackFields_after_ok_fail data pre f post 0 e hpre hstep
  have hlen := unpackFields_length data pre 0
  subst hsplit
  have htake : (pre ++ f :: post).take pre.length = pre := List.take_left _ _
  have hidx : (pre ++ f :: post)[pre.length]? = some f := by
    rw [List.getElem?_append_right (le_refl _)]
    simp
  refine ⟨pre.length, f, hidx, ?_, ?_, ?_, ?_, ?_⟩
  · rw [htake]; exact hpre
  · rw [htake]; rw [zero_add] at hstep; exact hstep
  · intro k g hk hg
    have hg2 : pre[k]? = some g := by
      rwa [List.getElem?_append_left hk] at hg
    have htk : (pre ++ f :: post).take k = pre.take k := by
      rw [List.take_append_of_le_length (by omega)]
    obtain ⟨_, hd1, hd2⟩ := unpackFields_ok data pre 0 hpre k g hg2
    rw [htk, hfs, List.getElem?_append_left (by omega)]
    refine ⟨?_, hd2⟩
    intro hd
    obtain ⟨raw, v, hr, hs, hf⟩ := hd1 hd
    exact ⟨raw, v, by simpa using hr, hs, hf⟩
  · rw [htake, hfs, ← hlen, List.take_left]
  · rw [hfs, ← hlen, List.drop_left, hlen, List.drop_left]

/-- C12 on the test "not enough data": the first two fields hold 13 and 10, the
last two are untouched. -/
theorem Unpack_stops_without_rollback_witness :
    (Unpack [0b11011010] (.structPtr MultipleBytes)).fields
        = [(field "Field1" .Uint8 "4").set 13, (field "Field2" .Uint8 "4").set 10,
           field "Field3" .Uint8 "6", field "Field4" .Uint8 "2"]
      ∧ ∃ (i : Nat) (f : StructField), MultipleBytes[i]? = some f
          ∧ (Unpack [0b11011010] (.structPtr (MultipleBytes.take i))).exit = .returned none
          ∧ loopBody [0b11011010] (totalWidth (MultipleBytes.take i)) f
              = .fail (.notEnoughBits "Field3" 6 0)
          ∧ (∀ (k : Nat) (g : StructField), k < i → MultipleBytes[k]? = some g →
                (g.described = true → ∃ raw v,
                    readBits [0b11011010] (totalWidth (MultipleBytes.take k)) g.bitWidth
                        = .ret raw none
                      ∧ setFieldValue g.kind raw = some v
                      ∧ (Unpack [0b11011010] (.structPtr MultipleBytes)).fields[k]?
                          = some (g.set v))
                  ∧ (g.described = false →
                      (Unpack [0b11011010] (.structPtr MultipleBytes)).fields[k]? = some g))
          ∧ (Unpack [0b11011010] (.structPtr MultipleBytes)).fields.take i
              = (Unpack [0b11011010] (.structPtr (MultipleBytes.take i))).fields
          ∧ (Unpack [0b11011010] (.structPtr MultipleBytes)).fields.drop i
              = MultipleBytes.drop i :=
  ⟨by decide,
   Unpack_stops_without_rollback [0b11011010] MultipleBytes (.notEnoughBits "Field3" 6 0)
     (by decide)⟩

/-- C15: at every cursor at which the walk of Unpack enters an iteration, a call
readBits(data, cursor, width) with width >= 1 and width <= 8*len(data) - cursor does
not panic and returns no error but the one of the 64-bit limit (never the range
error); Unpack does not panic, and an error of the reader that Unpack returns is the
one of the 64-bit limit. -/
theorem Unpack_range_error_unreachable (data : List Byte) (fields : List StructField) :
    (∀ c ∈ (Unpack data (.structPtr fields)).cursors, ∀ width : Int,
        1 ≤ width → width ≤ 8 * (data.length : Int) - c →
        readBits data c width ≠ .panicked
          ∧ (∀ v, readBits data c width ≠ .ret v (some .notEnoughData))
          ∧ (∀ v err, readBits data c width = .ret v (some err) →
              err = .tooManyBits ∧ 64 < width))
      ∧ (Unpack data (.structPtr fields)).exit ≠ .panicked
      ∧ (∀ name err, (Unpack data (.structPtr fields)).exit
            = .returned (some (.readFailed name err)) → err = .tooManyBits) := by
  have hU : Unpack data (.structPtr fields) = unpackFields data fields 0 := rfl
  rw [hU]
  refine ⟨?_, unpackFields_no_panic data fields 0 (le_refl _), ?_⟩
  · intro c hc width h1 hfit
    obtain ⟨hb, _, _⟩ := unpackFields_cursor_bounds data fields 0 (le_refl _) (by omega)
    have hc0 := (hb c hc).1
    rcases readBits_after_precheck data c width hc0 h1 (by omega) with ⟨_, hr⟩ | ⟨hbig, hr⟩
    · rw [hr]
      refine ⟨(by intro h; cases h), ?_, ?_⟩
      · intro v h; injection h with _ h2; cases h2
      · intro v err h; injection h with _ h2; cases h2
    · rw [hr]
      refine ⟨(by intro h; cases h), ?_, ?_⟩
      · intro v h; injection h with _ h2; injection h2 with h3; cases h3
      · intro v err h
        injection h with _ h2
        injection h2 with h3
        exact ⟨h3.symm, hbig⟩
  · intro name err hexit
    have hstop : (unpackFields data fields 0).exit ≠ .returned none := by
      rw [hexit]; intro h; cases h
    obtain ⟨pre, f, post, _, hpre, hcase⟩ := unpackFields_stop_split data fields 0 hstop
    have hnn := totalWidth_nonneg_of_ok data pre 0 hpre
    rcases hcase with ⟨e2, hs, hexit2⟩ | ⟨_, hexit2⟩
    · rw [hexit] at hexit2
      injection hexit2 with hexit2
      injection hexit2 with hexit2
      rw [← hexit2] at hs
      exact ((loopBody_read_inv data (0 + totalWidth pre) f (by omega)).2 name err hs).1
    · rw [hexit] at hexit2; cases hexit2

/-- C19 fails as stated: a width of 65 is reported with the error of the reader when
the buffer has 65 bits or more, and with the insufficient-data error when it has
fewer; neither is the invalid-width error. -/
theorem Unpack_wide_width_other_errors :
    (Unpack [1, 2, 3, 4, 5, 6, 7, 8, 9] (.structPtr [field "Wide" .Uint64 "65"])).exit
        = .returned (some (.readFailed "Wide" .tooManyBits))
      ∧ (Unpack [1, 2, 3, 4, 5, 6, 7, 8, 9] (.structPtr [field "Wide" .Uint64 "65"])).exit
        ≠ .returned (some (.invalidBits "65" "Wide"))
      ∧ (Unpack [1] (.structPtr [field "Wide" .Uint64 "65"])).exit
        = .returned (some (.notEnoughBits "Wide" 65 8))
      ∧ (Unpack [1] (.structPtr [field "Wide" .Uint64 "65"])).exit
        ≠ .returned (some (.invalidBits "65" "Wide")) := by
  decide

/-- An iteration on a described field with a declared width of 65 or more fails. -/
theorem loopBody_wide (data : List Byte) (off : Int) (f : StructField) (t : String) (w : Int)
    (hexp : f.exported = true) (htag : f.bitsTag = some t) (hw : parseDecimal t = some w)
    (h65 : 65 ≤ w) :
    loopBody data off f
      = .fail (if 2 ^ 63 ≤ w then .invalidBits t f.name
               else if (data.length : Int) * 8 - off < w then
                 .notEnoughBits f.name w ((data.length : Int) * 8 - off)
               else .readFailed f.name .tooManyBits) := by
  by_cases hbig : 2 ^ 63 ≤ w
  · have ha : Atoi t = none := by
      have hn : ¬ (w < 9223372036854775808) := by omega
      simp [Atoi, hw, hn]
    rw [if_pos hbig]
    simp [loopBody, hexp, htag, ha]
  · have ha : Atoi t = some w := by
      have h1 : w < 9223372036854775808 := by omega
      have h2 : -9223372036854775808 ≤ w := by omega
      simp [Atoi, hw, h1, h2]
    have hpos : ¬ (w ≤ 0) := by omega
    rw [if_neg hbig]
    by_cases hshort : (data.length : Int) * 8 - off < w
    · rw [if_pos hshort]
      simp only [loopBody, hexp, htag, ha, hpos, hshort, Bool.not_true,
        Bool.false_eq_true, if_false, if_true]
    · have hr := readBits_too_many data off w (by omega)
      rw [if_neg hshort]
      simp only [loopBody, hexp, htag, ha, hpos, hshort, hr, Bool.not_true,
        Bool.false_eq_true, if_false]

/-- C19, amended: when the first failing field has a declared width above 64, the
error Unpack returns is the invalid-width error if the width does not fit an int,
else the insufficient-data error if fewer bits than the width remain in the buffer,
else the error of the reader (more than 64 bits) with the name of the field. -/
theorem Unpack_wide_width_error (data : List Byte) (pre : List StructField) (f : StructField)
    (post : List StructField) (t : String) (w : Int)
    (hpre : (Unpack data (.structPtr pre)).exit = .returned none)
    (hexp : f.exported = true) (htag : f.bitsTag = some t) (hw : parseDecimal t = some w)
    (h65 : 65 ≤ w) :
    (Unpack data (.structPtr (pre ++ f :: post))).exit
      = .returned (some
          (if 2 ^ 63 ≤ w then .invalidBits t f.name
           else if 8 * (data.length : Int) - totalWidth pre < w then
             .notEnoughBits f.name w (8 * (data.length : Int) - totalWidth pre)
           else .readFailed f.name .tooManyBits)) := by
  have hpre2 : (unpackFields data pre 0).exit = .returned none := hpre
  have hstep := loopBody_wide data (0 + totalWidth pre) f t w hexp htag hw h65
  obtain ⟨hexit, _⟩ := unpackFields_after_ok_fail data pre f post 0 _ hpre2 hstep
  have hU : Unpack data (.structPtr (pre ++ f :: post)) = unpackFields data (pre ++ f :: post) 0 :=
    rfl
  rw [hU, hexit]
  have hav : (data.length : Int) * 8 - (0 + totalWidth pre)
      = 8 * (data.length : Int) - totalWidth pre := by omega
  rw [hav]

/-- C19 amended, on a 65-bit field after a byte field, against ten bytes. -/
theorem Unpack_wide_width_error_witness :
    (Unpack [1, 2, 3, 4, 5, 6, 7, 8, 9, 10]
          (.structPtr ([field "A" .Uint8 "8"] ++ field "Wide" .Uint64 "65" :: []))).exit
      = .returned (some
          (if 2 ^ 63 ≤ (65 : Int) then .invalidBits "65" (field "Wide" .Uint64 "65").name
           else if 8 * (([1, 2, 3, 4, 5, 6, 7, 8, 9, 10] : List Byte).length : Int)
                - totalWidth [field "A" .Uint8 "8"] < 65 then
             .notEnoughBits (field "Wide" .Uint64 "65").name 65
               (8 * (([1, 2, 3, 4, 5, 6, 7, 8, 9, 10] : List Byte).length : Int)
                 - totalWidth [field "A" .Uint8 "8"])
           else .readFailed (field "Wide" .Uint64 "65").name .tooManyBits)) :=
  Unpack_wide_width_error [1, 2, 3, 4, 5, 6, 7, 8, 9, 10] [field "A" .Uint8 "8"]
    (field "Wide" .Uint64 "65") [] "65" 65 (by decide) (by decide) (by decide) (by decide)
    (by decide)

/-! ## Signed targets -/

/-- The two conversions of the signed case, `int64(value)` and the conversion to the
type of the field, amount to one two's-complement reading of the low bits. -/
theorem setFieldValue_signed_eq (k : Kind) (raw : Nat) (hk : signedKind k = true) :
    setFieldValue k raw
      = some (if (raw : Int) % 2 ^ k.bits < 2 ^ (k.bits - 1) then (raw : Int) % 2 ^ k.bits
              else (raw : Int) % 2 ^ k.bits - 2 ^ k.bits) := by
  cases k <;> simp [signedKind] at hk <;>
    simp only [setFieldValue, SetInt, wrapSigned, Kind.bits] <;>
    norm_num <;> split_ifs <;> omega

/-- A window whose first bit is set has its top bit set. -/
theorem window_first_bit (data : List Byte) (off n : Nat) (hn : 1 ≤ n)
    (hbit : bitAt data off = 1) : 2 ^ (n - 1) ≤ window data off n := by
  have h1 : window data off 1 = bitAt data off := by
    have := window_succ data off 0
    simpa [window_zero] using this
  have hsplit : n = 1 + (n - 1) := by omega
  rw [hsplit, window_add, h1, hbit]
  have : 1 + (n - 1) - 1 = n - 1 := by omega
  rw [this]
  omega

/-- C17: a described field with a signed target of width N and a bit width in 1..64,
reached without an earlier error and with enough bits left, is assigned the low N
bits of the value r readBits returns, read as a two's-complement number: the value
of the field after the call is r mod 2^N if that is below 2^(N-1), else
(r mod 2^N) - 2^N.  When the bit width is N and the
first bit of the field is 1, that is the negative number r - 2^N. -/
theorem Unpack_signed_twos_complement (data : List Byte) (pre : List StructField)
    (f : StructField) (post : List StructField) (t : String) (w : Int)
    (hpre : (Unpack data (.structPtr pre)).exit = .returned none)
    (hexp : f.exported = true) (htag : f.bitsTag = some t) (hw : Atoi t = some w)
    (hk : signedKind f.kind = true) (h1 : 1 ≤ w) (h64 : w ≤ 64)
    (hfit : totalWidth pre + w ≤ 8 * (data.length : Int)) :
    ∃ raw : Nat, readBits data (totalWidth pre) w = .ret raw none
      ∧ (Unpack data (.structPtr (pre ++ f :: post))).fields[pre.length]?
          = some ⟨f.name, f.exported, f.bitsTag, f.kind,
              (if (raw : Int) % 2 ^ f.kind.bits < 2 ^ (f.kind.bits - 1)
               then (raw : Int) % 2 ^ f.kind.bits
               else (raw : Int) % 2 ^ f.kind.bits - 2 ^ f.kind.bits)⟩
      ∧ (w = (f.kind.bits : Int) → bitAt data (totalWidth pre).toNat = 1 →
          (Unpack data (.structPtr (pre ++ f :: post))).fields[pre.length]?
              = some ⟨f.name, f.exported, f.bitsTag, f.kind, (raw : Int) - 2 ^ f.kind.bits⟩
            ∧ (raw : Int) - 2 ^ f.kind.bits < 0) := by
  have hpre2 : (unpackFields data pre 0).exit = .returned none := hpre
  have hnn := totalWidth_nonneg_of_ok data pre 0 hpre2
  have hsup : supportedKind f.kind = true := by
    cases hkind : f.kind <;> simp [hkind, signedKind] at hk <;> rfl
  have hwf := wellFormed_of_parts f t w hexp htag hw h1 h64 hsup
  have hbw := bitWidth_of_tag f t w hexp htag hw
  obtain ⟨v, hv, hstep⟩ := loopBody_wellFormed_fits data (totalWidth pre) f hwf hnn
    (by rw [hbw]; omega)
  rw [hbw] at hv hstep
  rw [setFieldValue_signed_eq f.kind _ hk] at hv
  injection hv with hv
  have hstep2 : loopBody data (0 + totalWidth pre) f = .assign v w := by
    rw [zero_add]; exact hstep
  have hstored := unpackFields_after_ok_assign data pre f post 0 v w hpre2 hstep2
  have hU : Unpack data (.structPtr (pre ++ f :: post)) = unpackFields data (pre ++ f :: post) 0 :=
    rfl
  rw [hU, hstored]
  refine ⟨window data (totalWidth pre).toNat w.toNat, ?_, (by rw [hv]; rfl), ?_⟩
  · have := readBits_in_bounds data (totalWidth pre).toNat w.toNat (by omega) (by omega)
    rwa [Int.toNat_of_nonneg hnn, Int.toNat_of_nonneg (by omega : (0 : Int) ≤ w)] at this
  · intro hwN hbit
    have hN : w.toNat = f.kind.bits := by omega
    have hlt : window data (totalWidth pre).toNat w.toNat < 2 ^ f.kind.bits :=
      Nat.lt_of_lt_of_eq (window_lt data (totalWidth pre).toNat w.toNat) (by rw [hN])
    have hge : 2 ^ (f.kind.bits - 1) ≤ window data (totalWidth pre).toNat w.toNat :=
      Nat.le_trans (Nat.le_of_eq (by rw [hN]))
        (window_first_bit data (totalWidth pre).toNat w.toNat (by omega) hbit)
    have hlt2 : ((window data (totalWidth pre).toNat w.toNat : Nat) : Int) < 2 ^ f.kind.bits := by
      exact_mod_cast hlt
    have hge2 : (2 : Int) ^ (f.kind.bits - 1)
        ≤ ((window data (totalWidth pre).toNat w.toNat : Nat) : Int) := by
      exact_mod_cast hge
    have hmod : ((window data (totalWidth pre).toNat w.toNat : Nat) : Int) % 2 ^ f.kind.bits
        = ((window data (totalWidth pre).toNat w.toNat : Nat) : Int) :=
      Int.emod_eq_of_lt (by omega) hlt2
    rw [hmod] at hv
    have hnot : ¬ (((window data (totalWidth pre).toNat w.toNat : Nat) : Int)
        < 2 ^ (f.kind.bits - 1)) := by omega
    rw [if_neg hnot] at hv
    refine ⟨(by rw [hv]; rfl), by omega⟩

/-- C17 on the 8-bit field 0b11111111 stored into a signed 8-bit field: it holds -1. -/
theorem Unpack_signed_twos_complement_witness :
    (Unpack [0b11111111] (.structPtr [field "F" .Int8 "8"])).fields
        = [⟨"F", true, some "8", .Int8, -1⟩]
      ∧ (Unpack [0b11111111] (.structPtr [field "F" .Int8 "8"])).fields.map StructField.value
        = [-1]
      ∧ ∃ raw : Nat, readBits [0b11111111] (totalWidth []) 8 = .ret raw none
          ∧ (Unpack [0b11111111]
                (.structPtr ([] ++ field "F" .Int8 "8" :: []))).fields[([] : List StructField).length]?
              = some ⟨"F", true, some "8", .Int8,
                  (if (raw : Int) % 2 ^ (field "F" .Int8 "8").kind.bits
                        < 2 ^ ((field "F" .Int8 "8").kind.bits - 1)
                   then (raw : Int) % 2 ^ (field "F" .Int8 "8").kind.bits
                   else (raw : Int) % 2 ^ (field "F" .Int8 "8").kind.bits
                          - 2 ^ (field "F" .Int8 "8").kind.bits)⟩
          ∧ ((8 : Int) = ((field "F" .Int8 "8").kind.bits : Int) →
              bitAt [0b11111111] (totalWidth []).toNat = 1 →
              (Unpack [0b11111111]
                    (.structPtr ([] ++ field "F" .Int8 "8" :: []))).fields[([] : List StructField).length]?
                  = some ⟨"F", true, some "8", .Int8,
                      (raw : Int) - 2 ^ (field "F" .Int8 "8").kind.bits⟩
                ∧ (raw : Int) - 2 ^ (field "F" .Int8 "8").kind.bits < 0) :=
  ⟨by decide, by decide,
   Unpack_signed_twos_complement [0b11111111] [] (field "F" .Int8 "8") [] "8" 8
     (by decide) (by decide) (by decide) (by decide) (by decide) (by decide) (by decide)
     (by decide)⟩

/-! ## Single steps of the walk -/

/-- The first cursor of a walk (or its last one, when no iteration is entered) is
the cursor it is started with. -/
theorem unpackFields_first_cursor (data : List Byte) (fields : List StructField) (off : Int) :
    ((unpackFields data fields off).cursors[0]?).getD (unpackFields data fields off).bitOffset
      = off := by
  cases fields with
  | nil => simp [unpackFields]
  | cons g rest =>
    cases hstep : loopBody data off g with
    | skip => rw [unpackFields_cons_skip data g rest off hstep]; simp
    | assign v w => rw [unpackFields_cons_assign data g rest off v w hstep]; simp
    | fail e => rw [unpackFields_cons_fail data g rest off e hstep]; simp
    | panic => rw [unpackFields_cons_panic data g rest off hstep]; simp

/-- Every iteration that is entered: the cursor after it is the cursor before it
plus the advance of the iteration, and the field holds what the iteration stores. -/
theorem unpackFields_cursor_step (data : List Byte) :
    ∀ (fields : List StructField) (off : Int) (k : Nat) (c : Int) (f : StructField),
      (unpackFields data fields off).cursors[k]? = some c → fields[k]? = some f →
      cursorAfter (unpackFields data fields off) k = c + (loopBody data c f).advance
        ∧ (unpackFields data fields off).fields[k]? = some ((loopBody data c f).store f) := by
  intro fields
  induction fields with
  | nil => intro off k c f _ hf; simp at hf
  | cons g rest ih =>
    intro off k c f hc hf
    cases hstep : loopBody data off g with
    | skip =>
      rw [unpackFields_cons_skip data g rest off hstep] at hc ⊢
      cases k with
      | zero =>
        simp only [List.getElem?_cons_zero, Option.some.injEq] at hc hf
        subst hc; subst hf
        have h1 := unpackFields_first_cursor data rest off
        simp only [cursorAfter, List.getElem?_cons_succ, hstep, FieldStep.advance,
          FieldStep.store, add_zero, List.getElem?_cons_zero, and_true]
        exact h1
      | succ k =>
        simp only [List.getElem?_cons_succ] at hc hf
        have := ih off k c f hc hf
        simpa [cursorAfter] using this
    | assign v w =>
      rw [unpackFields_cons_assign data g rest off v w hstep] at hc ⊢
      cases k with
      | zero =>
        simp only [List.getElem?_cons_zero, Option.some.injEq] at hc hf
        subst hc; subst hf
        have h1 := unpackFields_first_cursor data rest (off + w)
        simp only [cursorAfter, List.getElem?_cons_succ, hstep, FieldStep.advance,
          FieldStep.store, List.getElem?_cons_zero, and_true]
        exact h1
      | succ k =>
        simp only [List.getElem?_cons_succ] at hc hf
        have := ih (off + w) k c f hc hf
        simpa [cursorAfter] using this
    | fail e =>
      rw [unpackFields_cons_fail data g rest off e hstep] at hc ⊢
      cases k with
      | zero =>
        simp only [List.getElem?_cons_zero, Option.some.injEq] at hc hf
        subst hc; subst hf
        simp [cursorAfter, hstep, FieldStep.advance, FieldStep.store]
      | succ k => simp at hc
    | panic =>
      rw [unpackFields_cons_panic data g rest off hstep] at hc ⊢
      cases k with
      | zero =>
        simp only [List.getElem?_cons_zero, Option.some.injEq] at hc hf
        subst hc; subst hf
        simp [cursorAfter, hstep, FieldStep.advance, FieldStep.store]
      | succ k => simp at hc

/-- The walk over a record and the walk over its described fields alone end the same
way, at the same cursor, with the same described fields; the skipped fields keep
their values. -/
theorem unpackFields_filter (data : List Byte) :
    ∀ (fields : List StructField) (off : Int),
      (unpackFields data fields off).exit
          = (unpackFields data (fields.filter StructField.described) off).exit
        ∧ (unpackFields data fields off).bitOffset
          = (unpackFields data (fields.filter StructField.described) off).bitOffset
        ∧ (unpackFields data fields off).fields.filter StructField.described
          = (unpackFields data (fields.filter StructField.described) off).fields
        ∧ (unpackFields data fields off).fields.filter (fun f => !f.described)
          = fields.filter (fun f => !f.described) := by
  intro fields
  induction fields with
  | nil => intro off; simp [unpackFields]
  | cons g rest ih =>
    intro off
    cases hd : g.described with
    | false =>
      obtain ⟨h1, h2, h3, h4⟩ := ih off
      rw [unpackFields_cons_skip data g rest off (loopBody_skip data off g hd)]
      simp [List.filter_cons, hd, h1, h2, h3, h4]
    | true =>
      have hfil : (g :: rest).filter StructField.described
          = g :: rest.filter StructField.described := by
        simp [List.filter_cons, hd]
      rw [hfil]
      cases hstep : loopBody data off g with
      | skip =>
        rw [loopBody_skip_inv data off g hstep] at hd
        cases hd
      | assign v w =>
        obtain ⟨h1, h2, h3, h4⟩ := ih (off + w)
        have hsd : (g.set v).described = true := hd
        rw [unpackFields_cons_assign data g rest off v w hstep,
          unpackFields_cons_assign data g _ off v w hstep]
        simp [List.filter_cons, hsd, hd, h1, h2, h3, h4]
      | fail e =>
        rw [unpackFields_cons_fail data g rest off e hstep,
          unpackFields_cons_fail data g _ off e hstep]
        simp [List.filter_cons, hd]
      | panic =>
        rw [unpackFields_cons_panic data g rest off hstep,
          unpackFields_cons_panic data g _ off hstep]
        simp [List.filter_cons, hd]

/-- A skipped field keeps its value, whether or not the walk gets to it. -/
theorem unpackFields_skipped_unchanged (data : List Byte) :
    ∀ (fields : List StructField) (off : Int) (k : Nat) (f : StructField),
      fields[k]? = some f → f.described = false →
      (unpackFields data fields off).fields[k]? = some f := by
  intro fields
  induction fields with
  | nil => intro off k f hf; simp at hf
  | cons g rest ih =>
    intro off k f hf hd
    cases hstep : loopBody data off g with
    | skip =>
      rw [unpackFields_cons_skip data g rest off hstep]
      cases k with
      | zero => simpa using hf
      | succ k =>
        simp only [List.getElem?_cons_succ] at hf ⊢
        exact ih off k f hf hd
    | assign v w =>
      rw [unpackFields_cons_assign data g rest off v w hstep]
      cases k with
      | zero =>
        simp only [List.getElem?_cons_zero, Option.some.injEq] at hf
        subst hf
        obtain ⟨hexp, ⟨t, htag, _⟩, _⟩ := loopBody_assign_inv data off g v w hstep
        simp [StructField.described, hexp, htag] at hd
      | succ k =>
        simp only [List.getElem?_cons_succ] at hf ⊢
        exact ih (off + w) k f hf hd
    | fail e => rw [unpackFields_cons_fail data g rest off e hstep]; exact hf
    | panic => rw [unpackFields_cons_panic data g rest off hstep]; exact hf

theorem loopBody_fail_described (data : List Byte) (off : Int) (f : StructField)
    (e : UnpackError) (h : loopBody data off f = .fail e) : f.described = true := by
  cases hd : f.described with
  | true => rfl
  | false =>
    rw [loopBody_skip data off f hd] at h
    cases h

/-- C14: a field that is unexported or has no bits annotation keeps its value and
the iteration on it leaves the cursor where it is; Unpack on a record and Unpack on
the record without those fields end the same way (nil or the same error), at the
same cursor, with the same values in the described fields; and every error Unpack
returns comes from the iteration of a described field. -/
theorem Unpack_skipped_fields_consume_nothing (data : List Byte) (fields : List StructField) :
    (∀ (k : Nat) (f : StructField), fields[k]? = some f → f.described = false →
        (Unpack data (.structPtr fields)).fields[k]? = some f
          ∧ ∀ c, (Unpack data (.structPtr fields)).cursors[k]? = some c →
              cursorAfter (Unpack data (.structPtr fields)) k = c)
      ∧ (Unpack data (.structPtr fields)).exit
          = (Unpack data (.structPtr (fields.filter StructField.described))).exit
      ∧ (Unpack data (.structPtr fields)).bitOffset
          = (Unpack data (.structPtr (fields.filter StructField.described))).bitOffset
      ∧ (Unpack data (.structPtr fields)).fields.filter StructField.described
          = (Unpack data (.structPtr (fields.filter StructField.described))).fields
      ∧ (∀ e, (Unpack data (.structPtr fields)).exit = .returned (some e) →
          ∃ (pre : List StructField) (f : StructField) (post : List StructField),
            fields = pre ++ f :: post ∧ f.described = true
              ∧ loopBody data (totalWidth pre) f = .fail e) := by
  have hU : ∀ l, Unpack data (.structPtr l) = unpackFields data l 0 := fun _ => rfl
  simp only [hU]
  obtain ⟨h1, h2, h3, _⟩ := unpackFields_filter data fields 0
  refine ⟨?_, h1, h2, h3, ?_⟩
  · intro k f hf hd
    refine ⟨unpackFields_skipped_unchanged data fields 0 k f hf hd, ?_⟩
    intro c hc
    have := (unpackFields_cursor_step data fields 0 k c f hc hf).1
    rw [loopBody_skip data c f hd] at this
    simpa [FieldStep.advance] using this
  · intro e hexit
    have hstop : (unpackFields data fields 0).exit ≠ .returned none := by
      rw [hexit]; intro h; cases h
    obtain ⟨pre, f, post, hsplit, _, hcase⟩ := unpackFields_stop_split data fields 0 hstop
    rcases hcase with ⟨e2, hs, hexit2⟩ | ⟨_, hexit2⟩
    · rw [hexit] at hexit2
      injection hexit2 with hexit2
      injection hexit2 with hexit2
      rw [← hexit2, zero_add] at hs
      exact ⟨pre, f, post, hsplit, loopBody_fail_described data _ f e hs, hs⟩
    · rw [hexit] at hexit2; cases hexit2

/-- A record with an unexported string field that has a bits annotation and
an exported float field without one, between two 4-bit fields. -/
theorem Unpack_skipped_fields_example :
    Unpack [0xAB] (.structPtr [field "A" .Uint8 "4", ⟨"hidden", false, some "8", .String, 7⟩,
          ⟨"NoTag", true, none, .Float64, 9⟩, field "B" .Uint8 "4"])
        = ⟨[(field "A" .Uint8 "4").set 10, ⟨"hidden", false, some "8", .String, 7⟩,
            ⟨"NoTag", true, none, .Float64, 9⟩, (field "B" .Uint8 "4").set 11],
           [0, 4, 4, 4], 8, .returned none⟩
      ∧ Unpack [0xAB] (.structPtr [field "A" .Uint8 "4", field "B" .Uint8 "4"])
        = ⟨[(field "A" .Uint8 "4").set 10, (field "B" .Uint8 "4").set 11],
           [0, 4], 8, .returned none⟩ := by
  decide

/-- C16: at every iteration of the walk of Unpack the cursor is in 0 .. 8*len(data),
and so is the cursor the call ends with; the first cursor is 0; the cursor after an
iteration is not below the cursor before it; it is the same after a skipped field
and after a field whose iteration fails; and when it differs, it is the cursor
before plus the bit width of the field, that width is positive, and the field was
read and assigned. -/
theorem Unpack_cursor_invariant (data : List Byte) (fields : List StructField) :
    (∀ c ∈ (Unpack data (.structPtr fields)).cursors, 0 ≤ c ∧ c ≤ 8 * (data.length : Int))
      ∧ 0 ≤ (Unpack data (.structPtr fields)).bitOffset
      ∧ (Unpack data (.structPtr fields)).bitOffset ≤ 8 * (data.length : Int)
      ∧ (∀ c, (Unpack data (.structPtr fields)).cursors[0]? = some c → c = 0)
      ∧ ∀ (k : Nat) (c : Int) (f : StructField),
          (Unpack data (.structPtr fields)).cursors[k]? = some c → fields[k]? = some f →
          c ≤ cursorAfter (Unpack data (.structPtr fields)) k
            ∧ (f.described = false → cursorAfter (Unpack data (.structPtr fields)) k = c)
            ∧ (∀ e, loopBody data c f = .fail e →
                cursorAfter (Unpack data (.structPtr fields)) k = c)
            ∧ (cursorAfter (Unpack data (.structPtr fields)) k ≠ c →
                cursorAfter (Unpack data (.structPtr fields)) k = c + f.bitWidth
                  ∧ 0 < f.bitWidth
                  ∧ ∃ raw v, readBits data c f.bitWidth = .ret raw none
                      ∧ setFieldValue f.kind raw = some v
                      ∧ (Unpack data (.structPtr fields)).fields[k]? = some (f.set v)) := by
  have hU : Unpack data (.structPtr fields) = unpackFields data fields 0 := rfl
  rw [hU]
  obtain ⟨hb1, hb2, hb3⟩ := unpackFields_cursor_bounds data fields 0 (le_refl _) (by omega)
  refine ⟨?_, hb2, by omega, ?_, ?_⟩
  · intro c hc
    have := hb1 c hc
    omega
  · intro c hc
    have := unpackFields_first_cursor data fields 0
    rw [hc] at this
    simpa using this
  · intro k c f hc hf
    obtain ⟨hstep, hstore⟩ := unpackFields_cursor_step data fields 0 k c f hc hf
    rw [hstep, hstore]
    cases hl : loopBody data c f with
    | skip => simp [FieldStep.advance]
    | fail e => simp [FieldStep.advance]
    | panic => simp [FieldStep.advance]
    | assign v w =>
      obtain ⟨hexp, ⟨t, htag, hw⟩, hpos, _, raw, hread, hset⟩ :=
        loopBody_assign_inv data c f v w hl
      have hbw := bitWidth_of_tag f t w hexp htag hw
      have hd : f.described = true := by simp [StructField.described, hexp, htag]
      simp only [FieldStep.advance, FieldStep.store, hbw, hd]
      refine ⟨(by omega), (by intro h; cases h), (by intro e h; cases h), ?_⟩
      intro _
      exact ⟨trivial, hpos, raw, v, hread, hset, rfl⟩

/-- The cursors of the test "not enough data": 0, 4, 8 and the final cursor 8. -/
theorem Unpack_cursor_trace_example :
    (Unpack [0b11011010] (.structPtr MultipleBytes)).cursors = [0, 4, 8]
      ∧ (Unpack [0b11011010] (.structPtr MultipleBytes)).bitOffset = 8
      ∧ cursorAfter (Unpack [0b11011010] (.structPtr MultipleBytes)) 1 = 8
      ∧ cursorAfter (Unpack [0b11011010] (.structPtr MultipleBytes)) 2 = 8 := by
  decide

end Bitpacker
